import Mathlib

/-!
# To-Do-List: task store, HTTP handlers, scheduled jobs and client filter

A shallow embedding of `src/server.js` (Express handlers over a Mongoose model,
plus two `node-cron` jobs), of the create handler of `src/index.js`, and of the
`filteredTasks` view of `src/my-todo-frontend/src/App.js`.

Conventions of the embedding.

* The collection is a list of documents in insertion order, next to the
  counter from which `new Task(...)` draws the next ObjectId; an ObjectId is a
  natural number and its text is 24 hexadecimal digits.
* A request body carries, for each schema field, either nothing (JavaScript
  `undefined` after destructuring) or a value of the JSON type the schema
  declares for it; an explicit JSON `null` and values of other types are
  outside the embedding.
* A `Date` is a time value in milliseconds since the epoch (`Int`) or Invalid
  Date (`none`); `TimeClip` bounds time values by 8.64e15 in absolute value.
  The `Date` methods follow the definitions of the ECMAScript specification
  (`Day`, `DayFromYear`, `MonthFromTime`, `MakeDay`, `LocalTime`, `UTC`, ...),
  with the offset of local time given by a `TimeZone`, which may vary with the
  time value (daylight saving).
* `save()` runs the schema validators (`required` refuses the empty string),
  the `findByIdAnd...` calls run none, and a route parameter that is not the
  text of an ObjectId makes the query reject with a cast error.
* What an update does with a key whose value is `undefined` depends on the
  release of the store layer, which the sources do not fix: Mongoose 6 and
  later drop the key, Mongoose 5 writes null. The typed store (`Task`,
  `putTask`) holds values of the schema types only and follows the first; the
  update is given for both at the level of stored documents whose paths may
  be null (`Document`, `putRaw`).
* No handler catches a rejection. `Reply.rejected` is a handler whose store call
  rejected: the handler itself wrote no reply (Express 4 leaves the request
  unanswered, Express 5 answers 500).
* The recurrence job awaits none of its saves: the copies are built in the
  order of the selected tasks and reach the collection in any order, and a
  rejected save is an unhandled rejection, after which the process may stop.
  `SweepsTo` is the relation between the store before a run and the stores it
  can leave; `recurrenceSweep` is the run in which the saves land in order.
-/

namespace TodoList

/-! ## Time values and the `Date` methods used by the recurrence job -/

/-- Number of milliseconds in a day. -/
def msPerDay : Int := 86400000

/-- Day number of a time value. -/
def Day (t : Int) : Int := t / msPerDay

/-- Milliseconds elapsed within the day. -/
def TimeWithinDay (t : Int) : Int := t % msPerDay

/-- Length of year `y` in days. -/
def DaysInYear (y : Int) : Int :=
  if y % 4 ≠ 0 then 365
  else if y % 100 ≠ 0 then 366
  else if y % 400 ≠ 0 then 365
  else 366

/-- Day number of the first day of year `y`. -/
def DayFromYear (y : Int) : Int :=
  365 * (y - 1970) + (y - 1969) / 4 - (y - 1901) / 100 + (y - 1601) / 400

/-- The year containing day number `d`: an estimate from the mean year length,
moved by at most one year so that `DayFromYear y ≤ d < DayFromYear (y + 1)`. -/
def YearFromDay (d : Int) : Int :=
  let y := 1970 + (400 * d) / 146097
  if DayFromYear (y + 1) ≤ d then y + 1
  else if d < DayFromYear y then y - 1
  else y

/-- The year containing time value `t`. -/
def YearFromTime (t : Int) : Int := YearFromDay (Day t)

/-- One in a leap year, zero otherwise. -/
def InLeapYear (t : Int) : Int :=
  if DaysInYear (YearFromTime t) = 366 then 1 else 0

/-- Zero-based day within the year. -/
def DayWithinYear (t : Int) : Int := Day t - DayFromYear (YearFromTime t)

/-- Days of the year that precede month `m` (0 = January), with `leap` one in a
leap year. -/
def daysBeforeMonth (m leap : Int) : Int :=
  if m = 0 then 0
  else if m = 1 then 31
  else if m = 2 then 59 + leap
  else if m = 3 then 90 + leap
  else if m = 4 then 120 + leap
  else if m = 5 then 151 + leap
  else if m = 6 then 181 + leap
  else if m = 7 then 212 + leap
  else if m = 8 then 243 + leap
  else if m = 9 then 273 + leap
  else if m = 10 then 304 + leap
  else 334 + leap

/-- Month number (0 = January) of a time value. -/
def MonthFromTime (t : Int) : Int :=
  let d := DayWithinYear t
  let l := InLeapYear t
  if d < 31 then 0
  else if d < 59 + l then 1
  else if d < 90 + l then 2
  else if d < 120 + l then 3
  else if d < 151 + l then 4
  else if d < 181 + l then 5
  else if d < 212 + l then 6
  else if d < 243 + l then 7
  else if d < 273 + l then 8
  else if d < 304 + l then 9
  else if d < 334 + l then 10
  else 11

/-- Day of the month (1-based) of a time value. -/
def DateFromTime (t : Int) : Int :=
  DayWithinYear t - daysBeforeMonth (MonthFromTime t) (InLeapYear t) + 1

/-- Day number of the given year, month and day of month; month and day may lie
outside their usual ranges and carry over. -/
def MakeDay (year month date : Int) : Int :=
  let ym := year + month / 12
  let mn := month % 12
  let leap : Int := if DaysInYear ym = 366 then 1 else 0
  DayFromYear ym + daysBeforeMonth mn leap + date - 1

/-- Time value of a day number and a time within the day. -/
def MakeDate (day time : Int) : Int := day * msPerDay + time

/-- Offset of local time from UTC, which may depend on the instant. -/
structure TimeZone where
  /-- Offset in force at the UTC time value `t`. -/
  offsetAtUTC : Int → Int
  /-- Offset by which the local time value `t` is read back as UTC. -/
  offsetAtLocal : Int → Int

/-- A zone whose offset never changes. -/
def TimeZone.fixed (offset : Int) : TimeZone := ⟨fun _ => offset, fun _ => offset⟩

/-- Local time of a time value. -/
def LocalTime (tz : TimeZone) (t : Int) : Int := t + tz.offsetAtUTC t

/-- The time value of a local time. -/
def UTC (tz : TimeZone) (t : Int) : Int := t - tz.offsetAtLocal t

/-- A time value within the range of `Date`, or Invalid Date. -/
def TimeClip (t : Int) : Option Int :=
  if -8640000000000000 ≤ t ∧ t ≤ 8640000000000000 then some t else none

/-- `Date.prototype.getDate` of a valid date. -/
def getDate (tz : TimeZone) (t : Int) : Int := DateFromTime (LocalTime tz t)

/-- `Date.prototype.getMonth` of a valid date. -/
def getMonth (tz : TimeZone) (t : Int) : Int := MonthFromTime (LocalTime tz t)

/-- `Date.prototype.setDate` on a valid date: what the date holds afterwards. -/
def setDate (tz : TimeZone) (t : Int) (dt : Int) : Option Int :=
  let lt := LocalTime tz t
  TimeClip
    (UTC tz (MakeDate (MakeDay (YearFromTime lt) (MonthFromTime lt) dt) (TimeWithinDay lt)))

/-- `Date.prototype.setMonth` on a valid date: what the date holds afterwards. -/
def setMonth (tz : TimeZone) (t : Int) (m : Int) : Option Int :=
  let lt := LocalTime tz t
  TimeClip
    (UTC tz (MakeDate (MakeDay (YearFromTime lt) m (DateFromTime lt)) (TimeWithinDay lt)))

/-- `new Date(value)` for a stored date or `null`; `null` converts to 0. -/
def newDate (value : Option Int) : Option Int := TimeClip (value.getD 0)

/-! ## Task schema and model (`taskSchema`, `Task`) -/

/-- A persisted task document; `_id` is the ObjectId, as a natural number. -/
structure Task where
  _id : Nat
  title : String
  completed : Bool
  dueDate : Option Int
  category : String
  recurring : String
  createdAt : Int
deriving DecidableEq, Repr

/-- Values the schema lists for `category`. -/
def categoryEnum : List String := ["Work", "Personal", "Urgent", "Other"]

/-- Values the schema lists for `recurring`. -/
def recurringEnum : List String := ["None", "Daily", "Weekly", "Monthly"]

/-- The mutable fields as they arrive in a request body or are handed to the
model; `none` is a key that is absent or `undefined`. -/
structure TaskFields where
  title : Option String := none
  completed : Option Bool := none
  dueDate : Option Int := none
  category : Option String := none
  recurring : Option String := none
deriving DecidableEq, Repr

/-- Failures with which a store call rejects. -/
inductive MongooseError where
  | validationError
  | castError
deriving DecidableEq, Repr

/-- The collection together with the ObjectId generator of the process. -/
structure Store where
  tasks : List Task
  nextId : Nat
deriving DecidableEq, Repr

/-- The empty collection. -/
def Store.empty : Store := ⟨[], 0⟩

/-- `new Task(fields)`: assigns the identifier and applies the schema defaults
to every path left `undefined`. The title is a string at both call sites. -/
def newTask (oid : Nat) (now : Int) (title : String) (o : TaskFields) : Task :=
  { _id := oid
    title := title
    completed := o.completed.getD false
    dueDate := o.dueDate
    category := o.category.getD "Other"
    recurring := o.recurring.getD "None"
    createdAt := now }

/-- Schema validation run by `save()`: `title` required (a non-empty string),
`category` and `recurring` members of their enumerations. -/
def validate (t : Task) : Bool :=
  t.title ≠ "" && categoryEnum.contains t.category && recurringEnum.contains t.recurring

/-- `doc.save()` of a new document: validates, then inserts. -/
def save (s : Store) (t : Task) : Except MongooseError Store :=
  if validate t then .ok { s with tasks := s.tasks ++ [t] }
  else .error .validationError

/-! ## Queries -/

/-- The conditions the handlers and jobs put in a filter; `none` leaves the
path unconstrained. -/
structure Query where
  completed : Option Bool := none
  dueDateGte : Option Int := none
  dueDateLt : Option Int := none
  recurringNe : Option String := none
deriving DecidableEq, Repr

/-- Whether a document satisfies every condition of the filter. A range
condition on `dueDate` is not met by a document whose `dueDate` is null. -/
def Query.matches (q : Query) (t : Task) : Bool :=
  (match q.completed with
    | none => true
    | some b => t.completed == b) &&
  (match q.dueDateGte with
    | none => true
    | some lo => match t.dueDate with
      | none => false
      | some d => decide (lo ≤ d)) &&
  (match q.dueDateLt with
    | none => true
    | some hi => match t.dueDate with
      | none => false
      | some d => decide (d < hi)) &&
  (match q.recurringNe with
    | none => true
    | some r => t.recurring != r)

/-- `Task.find(filter)`. -/
def find (s : Store) (q : Query) : List Task := s.tasks.filter q.matches

/-- Value of a hexadecimal digit, in either case. -/
def hexDigitValue (c : Char) : Option Nat :=
  if '0' ≤ c ∧ c ≤ '9' then some (c.toNat - 48)
  else if 'a' ≤ c ∧ c ≤ 'f' then some (c.toNat - 87)
  else if 'A' ≤ c ∧ c ≤ 'F' then some (c.toNat - 55)
  else none

/-- The number written by a list of hexadecimal digits, after `acc`. -/
def parseHex (acc : Nat) : List Char → Option Nat
  | [] => some acc
  | c :: cs =>
    match hexDigitValue c with
    | none => none
    | some d => parseHex (acc * 16 + d) cs

/-- Casting the `:id` route parameter for a query on `_id`: a text of 24
hexadecimal digits is the ObjectId it writes, any other text fails the cast.
(A text of 12 bytes, which the drivers before bson 6 also take as an ObjectId,
is treated as the later drivers do.) -/
def castObjectId (id : String) : Except MongooseError Nat :=
  if id.length = 24 then
    match parseHex 0 id.data with
    | some oid => .ok oid
    | none => .error .castError
  else .error .castError

/-- The digit for a value below 16. -/
def hexChar (d : Nat) : Char := Char.ofNat (if d < 10 then 48 + d else 87 + d)

/-- The last `k` hexadecimal digits of `n`. -/
def hexDigits : Nat → Nat → List Char
  | 0, _ => []
  | k + 1, n => hexDigits k (n / 16) ++ [hexChar (n % 16)]

/-- The text of an ObjectId, as it appears in a JSON reply. -/
def toHexString (oid : Nat) : String := ⟨hexDigits 24 oid⟩

/-- `Task.findById(id)`. -/
def findById (s : Store) (id : String) : Except MongooseError (Option Task) :=
  match castObjectId id with
  | .error e => .error e
  | .ok oid => .ok (s.tasks.find? (fun t => t._id == oid))

/-- Applies `$set` for every key of the update that holds a value; a key left
`undefined` is dropped (Mongoose 6 and later; see `setDocument` for both
behaviours). -/
def applySet (u : TaskFields) (t : Task) : Task :=
  { t with
    title := u.title.getD t.title
    completed := u.completed.getD t.completed
    dueDate := match u.dueDate with
      | some d => some d
      | none => t.dueDate
    category := u.category.getD t.category
    recurring := u.recurring.getD t.recurring }

/-- Rewrites the first element that satisfies `p`. -/
def updateFirst {α : Type} (p : α → Bool) (f : α → α) : List α → List α
  | [] => []
  | t :: ts => if p t then f t :: ts else t :: updateFirst p f ts

/-- `Task.findByIdAndUpdate(id, update, { new: true })`: no validators run;
answers the document as it is after the update, or null. -/
def findByIdAndUpdate (s : Store) (id : String) (u : TaskFields) :
    Except MongooseError (Option Task × Store) :=
  match castObjectId id with
  | .error e => .error e
  | .ok oid =>
    match s.tasks.find? (fun t => t._id == oid) with
    | none => .ok (none, s)
    | some t =>
      .ok (some (applySet u t),
        { s with tasks := updateFirst (fun t => t._id == oid) (applySet u) s.tasks })

/-- `Task.findByIdAndDelete(id)`: answers the removed document, or null. -/
def findByIdAndDelete (s : Store) (id : String) :
    Except MongooseError (Option Task × Store) :=
  match castObjectId id with
  | .error e => .error e
  | .ok oid =>
    match s.tasks.find? (fun t => t._id == oid) with
    | none => .ok (none, s)
    | some t => .ok (some t, { s with tasks := s.tasks.eraseP (fun t => t._id == oid) })

/-- `Task.updateMany(filter, update)`. -/
def updateMany (s : Store) (q : Query) (u : TaskFields) : Store :=
  { s with tasks := s.tasks.map (fun t => if q.matches t then applySet u t else t) }

/-! ## HTTP handlers -/

/-- What a handler leaves for the client; `rejected` is a handler whose store
call rejected, so that the handler wrote nothing itself. -/
inductive Reply where
  | task (status : Nat) (t : Task)
  | message (status : Nat) (text : String)
  | rejected (err : MongooseError)
deriving DecidableEq, Repr

/-- Status code the handler wrote, if it wrote a reply. -/
def Reply.status : Reply → Option Nat
  | .task st _ => some st
  | .message st _ => some st
  | .rejected _ => none

/-- JavaScript `!title` for a string or `undefined`. -/
def titleFalsy : Option String → Bool
  | none => true
  | some t => t == ""

/-- `GET /tasks/:id`. -/
def getTask (s : Store) (id : String) : Reply × Store :=
  match findById s id with
  | .error e => (.rejected e, s)
  | .ok none => (.message 404 "Task not found", s)
  | .ok (some t) => (.task 200 t, s)

/-- `POST /tasks`. -/
def postTask (now : Int) (s : Store) (body : TaskFields) : Reply × Store :=
  if titleFalsy body.title then (.message 400 "Title is required", s)
  else
    let t := newTask s.nextId now (body.title.getD "")
      { completed := some (body.completed.getD false)
        dueDate := body.dueDate
        category := body.category
        recurring := body.recurring }
    let s1 := { s with nextId := s.nextId + 1 }
    match save s1 t with
    | .error e => (.rejected e, s1)
    | .ok s2 => (.task 201 t, s2)

/-- The update object the `PUT` handler builds: all five keys, each holding the
body's value or `undefined`. -/
def putUpdate (body : TaskFields) : TaskFields :=
  { title := body.title
    completed := body.completed
    dueDate := body.dueDate
    category := body.category
    recurring := body.recurring }

/-- `PUT /tasks/:id`. -/
def putTask (s : Store) (id : String) (body : TaskFields) : Reply × Store :=
  match findByIdAndUpdate s id (putUpdate body) with
  | .error e => (.rejected e, s)
  | .ok (none, s1) => (.message 404 "Task not found", s1)
  | .ok (some t, s1) => (.task 200 t, s1)

/-- `DELETE /tasks/:id`. -/
def deleteTask (s : Store) (id : String) : Reply × Store :=
  match findByIdAndDelete s id with
  | .error e => (.rejected e, s)
  | .ok (none, s1) => (.message 404 "Task not found", s1)
  | .ok (some _, s1) => (.message 200 "Task deleted successfully", s1)

/-- `PATCH /tasks/complete-all`. -/
def completeAll (s : Store) : Reply × Store :=
  (.message 200 "All tasks marked as completed", updateMany s {} { completed := some true })

/-! ## The update at the level of stored documents -/

/-- What the store layer does with a key of an update whose value is
`undefined`: Mongoose 6 and later drop the key, Mongoose 5 (with
`omitUndefined` unset) writes null. -/
inductive UndefinedKeys where
  | dropped
  | writtenAsNull
deriving DecidableEq, Repr

/-- A stored document; every path other than `_id` and `createdAt` may hold
null. -/
structure Document where
  _id : Nat
  title : Option String
  completed : Option Bool
  dueDate : Option Int
  category : Option String
  recurring : Option String
  createdAt : Int
deriving DecidableEq, Repr

/-- The stored form of a task. -/
def Task.toDocument (t : Task) : Document :=
  { _id := t._id
    title := some t.title
    completed := some t.completed
    dueDate := t.dueDate
    category := some t.category
    recurring := some t.recurring
    createdAt := t.createdAt }

/-- The value of one path after `$set`, from the key of the update (`none` is
`undefined`) and the stored value (`none` is null). -/
def setPath {α : Type} (mode : UndefinedKeys) (key : Option α) (stored : Option α) :
    Option α :=
  match key with
  | some v => some v
  | none =>
    match mode with
    | .dropped => stored
    | .writtenAsNull => none

/-- A document after `$set` with the update `u`. -/
def setDocument (mode : UndefinedKeys) (u : TaskFields) (d : Document) : Document :=
  { d with
    title := setPath mode u.title d.title
    completed := setPath mode u.completed d.completed
    dueDate := setPath mode u.dueDate d.dueDate
    category := setPath mode u.category d.category
    recurring := setPath mode u.recurring d.recurring }

/-- What the `PUT` handler leaves for the client, at the level of stored
documents. -/
inductive RawReply where
  | document (status : Nat) (d : Document)
  | message (status : Nat) (text : String)
  | rejected (err : MongooseError)
deriving DecidableEq, Repr

/-- `PUT /tasks/:id` over stored documents, for either behaviour of the store
layer. -/
def putRaw (mode : UndefinedKeys) (docs : List Document) (id : String) (body : TaskFields) :
    RawReply × List Document :=
  match castObjectId id with
  | .error e => (.rejected e, docs)
  | .ok oid =>
    match docs.find? (fun d => d._id == oid) with
    | none => (.message 404 "Task not found", docs)
    | some d =>
      (.document 200 (setDocument mode (putUpdate body) d),
        updateFirst (fun d => d._id == oid) (setDocument mode (putUpdate body)) docs)

/-! ## Scheduled jobs -/

/-- The tasks the hourly reminder job reads. -/
def upcomingTasks (now : Int) (s : Store) : List Task :=
  find s { dueDateGte := some now, dueDateLt := some (now + 60 * 60 * 1000), completed := some false }

/-- The hourly reminder job: the lines it logs and the store it leaves. -/
def reminderSweep (now : Int) (s : Store) : List String × Store :=
  ((upcomingTasks now s).map
    (fun task => "🔔 Reminder: Task \"" ++ task.title ++ "\" is due soon!"), s)

/-- The due date the recurrence job computes for the copy of `task`; `none` is
Invalid Date. -/
def newDueDate (tz : TimeZone) (task : Task) : Option Int :=
  match newDate task.dueDate with
  | none => none
  | some d =>
    if task.recurring = "Daily" then setDate tz d (getDate tz d + 1)
    else if task.recurring = "Weekly" then setDate tz d (getDate tz d + 7)
    else if task.recurring = "Monthly" then setMonth tz d (getMonth tz d + 1)
    else some d

/-- The document the recurrence job builds from `task`, for a valid computed
due date. -/
def regenerate (now : Int) (oid : Nat) (task : Task) (dueDate : Int) : Task :=
  newTask oid now task.title
    { completed := some false
      dueDate := some dueDate
      category := some task.category
      recurring := some task.recurring }

/-- `save()` of the copy of `task`: an Invalid Date fails the cast of `dueDate`
and the save rejects, as it does when a validator refuses the copy. -/
def saveCopy (tz : TimeZone) (now : Int) (s : Store) (oid : Nat) (task : Task) :
    Except MongooseError Store :=
  match newDueDate tz task with
  | none => .error .validationError
  | some d => save s (regenerate now oid task d)

/-- Body of the `forEach` of the recurrence job for one selected task, when its
save lands before the next one starts: build the copy and save it; a rejected
`save()` inserts nothing. -/
def regenerateStep (tz : TimeZone) (now : Int) (s : Store) (task : Task) : Store :=
  let s1 := { s with nextId := s.nextId + 1 }
  match saveCopy tz now s1 s.nextId task with
  | .error _ => s1
  | .ok s2 => s2

/-- The daily recurrence job, with the saves landing in the order of the
selected tasks. -/
def recurrenceSweep (tz : TimeZone) (now : Int) (s : Store) : Store :=
  (find s { recurringNe := some "None" }).foldl (regenerateStep tz now) s

/-- The recurrence job run once at each of the given instants, in order, each
run with its saves landing in order. -/
def runSweeps (tz : TimeZone) (nows : List Int) (s : Store) : Store :=
  nows.foldl (fun acc now => recurrenceSweep tz now acc) s

/-- The copy of `task` whose save resolves, if it does. -/
def copyOf (tz : TimeZone) (now : Int) (oid : Nat) (task : Task) : Option Task :=
  match newDueDate tz task with
  | none => none
  | some d => if validate (regenerate now oid task d) then some (regenerate now oid task d)
    else none

/-- The copies whose save resolves, for the selected tasks `l` and the
generator at `c`, in the order in which the job builds them. -/
def savedCopies (tz : TimeZone) (now : Int) : Nat → List Task → List Task
  | _, [] => []
  | c, t :: l => (copyOf tz now c t).toList ++ savedCopies tz now (c + 1) l

/-- A store one run of the recurrence job can leave: the old records followed
by the resolved copies in some order; when a save was rejected the process may
have stopped, and only part of the resolved copies need have arrived. -/
def SweepsTo (tz : TimeZone) (now : Int) (s s' : Store) : Prop :=
  ∃ arrived : List Task,
    s' = ⟨s.tasks ++ arrived, s.nextId + (find s { recurringNe := some "None" }).length⟩ ∧
    arrived.Subperm (savedCopies tz now s.nextId (find s { recurringNe := some "None" })) ∧
    ((savedCopies tz now s.nextId (find s { recurringNe := some "None" })).length
        = (find s { recurringNe := some "None" }).length →
      arrived.Perm (savedCopies tz now s.nextId (find s { recurringNe := some "None" })))

/-- Stores that runs of the recurrence job at the given instants, with nothing
in between, can leave. -/
inductive RunsTo (tz : TimeZone) : List Int → Store → Store → Prop where
  | done (s : Store) : RunsTo tz [] s s
  | run {now : Int} {nows : List Int} {s s1 s2 : Store} :
      SweepsTo tz now s s1 → RunsTo tz nows s1 s2 → RunsTo tz (now :: nows) s s2

/-- Whether the due date of `task` can be advanced `k` times in a row, by the
period of `task`, without leaving the range of `Date`. -/
def advances (tz : TimeZone) : Nat → Task → Bool
  | 0, _ => true
  | k + 1, task =>
    match newDueDate tz task with
    | none => false
    | some d => advances tz k { task with dueDate := some d }

/-! ## Operations on the store -/

/-- The operations that write to the store. -/
inductive Op where
  | create (now : Int) (body : TaskFields)
  | update (id : String) (body : TaskFields)
  | delete (id : String)
  | bulkComplete
  | sweep (tz : TimeZone) (now : Int)

/-- The store after one operation; the recurrence job with its saves landing in
order. -/
def Op.apply (s : Store) : Op → Store
  | .create now body => (postTask now s body).2
  | .update id body => (putTask s id body).2
  | .delete id => (deleteTask s id).2
  | .bulkComplete => (completeAll s).2
  | .sweep tz now => recurrenceSweep tz now s

/-- The store after a sequence of operations. -/
def runOps (s : Store) (ops : List Op) : Store := ops.foldl Op.apply s

/-! ## Client view (`App.js`, `filteredTasks`) -/

/-- The list the client renders for the current filter. -/
def filteredTasks (tasks : List Task) (filter : String) : List Task :=
  tasks.filter (fun task =>
    if filter = "completed" then task.completed
    else if filter = "pending" then !task.completed
    else true)

/-! ## The earlier server (`index.js`): create only -/

namespace IndexJs

/-- A task document under the schema of `index.js`, which has no category and
no recurring. -/
structure Task where
  _id : Nat
  title : String
  completed : Bool
  dueDate : Option Int
deriving DecidableEq, Repr

/-- The collection and the ObjectId generator. -/
structure Store where
  tasks : List Task
  nextId : Nat
deriving DecidableEq, Repr

/-- What the handler leaves for the client. -/
inductive Reply where
  | task (status : Nat) (t : Task)
  | message (status : Nat) (text : String)
  | rejected (err : MongooseError)
deriving DecidableEq, Repr

/-- Schema validation run by `save()`: `title` required. -/
def validate (t : Task) : Bool := t.title ≠ ""

/-- `doc.save()` of a new document. -/
def save (s : Store) (t : Task) : Except MongooseError Store :=
  if validate t then .ok { s with tasks := s.tasks ++ [t] }
  else .error .validationError

/-- `POST /tasks` of `index.js`; only `title`, `completed` and `dueDate` are
read from the body. -/
def postTask (s : Store) (body : TaskFields) : Reply × Store :=
  if titleFalsy body.title then (.message 400 "Title is required", s)
  else
    let t : Task :=
      { _id := s.nextId
        title := body.title.getD ""
        completed := body.completed.getD false
        dueDate := body.dueDate }
    let s1 := { s with nextId := s.nextId + 1 }
    match save s1 t with
    | .error e => (.rejected e, s1)
    | .ok s2 => (.task 201 t, s2)

end IndexJs

/-! ## Predicates used in the statements -/

/-- Identifiers in the collection were all drawn from the generator already, so
the next one drawn is fresh. -/
def Store.WF (s : Store) : Prop := ∀ t ∈ s.tasks, t._id < s.nextId

/-- A record as the schema describes it: non-empty title, `category` and
`recurring` within their enumerations. -/
def Task.Valid (t : Task) : Prop :=
  t.title ≠ "" ∧ t.category ∈ categoryEnum ∧ t.recurring ∈ recurringEnum

/-- Two records that agree on every field other than `completed`. -/
def Task.AgreeExceptCompleted (t u : Task) : Prop :=
  u._id = t._id ∧ u.title = t.title ∧ u.dueDate = t.dueDate ∧ u.category = t.category ∧
    u.recurring = t.recurring ∧ u.createdAt = t.createdAt

/-- The reminder window in the words of the specification: not completed, and
due within `[now, now + 1 hour)`. -/
def dueWithinHour (now : Int) (t : Task) : Prop :=
  t.completed = false ∧ ∃ d, t.dueDate = some d ∧ now ≤ d ∧ d < now + 3600000

/-- An operation that carries no value the schema would refuse: an update may
set the title only to a non-empty string, and category and recurring only to
members of their enumerations. -/
def Op.Clean : Op → Prop
  | .update _ body =>
    (∀ v, body.title = some v → v ≠ "") ∧
    (∀ c, body.category = some c → c ∈ categoryEnum) ∧
    (∀ r, body.recurring = some r → r ∈ recurringEnum)
  | _ => True

/-! ## Client filter -/

theorem filteredTasks_pending (tasks : List Task) :
    filteredTasks tasks "pending" = tasks.filter (fun t => !t.completed) := by
  unfold filteredTasks
  congr 1

theorem filteredTasks_completed (tasks : List Task) :
    filteredTasks tasks "completed" = tasks.filter (fun t => t.completed) := by
  unfold filteredTasks
  congr 1

theorem filteredTasks_other (tasks : List Task) (f : String) (h1 : f ≠ "completed")
    (h2 : f ≠ "pending") : filteredTasks tasks f = tasks := by
  unfold filteredTasks
  simp [h1, h2]

/-- C10: for every task list, the "pending" view is the sublist of tasks with
`completed = false` and the "completed" view the sublist with
`completed = true`, both in the original order; the view for "all" or any other
filter value is the whole list; and the two views partition the list. -/
theorem filteredTasks_views (tasks : List Task) :
    filteredTasks tasks "pending" = tasks.filter (fun t => decide (t.completed = false)) ∧
    filteredTasks tasks "completed" = tasks.filter (fun t => decide (t.completed = true)) ∧
    (filteredTasks tasks "pending").Sublist tasks ∧
    (filteredTasks tasks "completed").Sublist tasks ∧
    filteredTasks tasks "all" = tasks ∧
    (∀ f : String, f ≠ "completed" → f ≠ "pending" → filteredTasks tasks f = tasks) ∧
    (∀ t, t ∈ filteredTasks tasks "pending" ↔ t ∈ tasks ∧ t.completed = false) ∧
    (∀ t, t ∈ filteredTasks tasks "completed" ↔ t ∈ tasks ∧ t.completed = true) ∧
    (∀ t, ¬ (t ∈ filteredTasks tasks "pending" ∧ t ∈ filteredTasks tasks "completed")) ∧
    (filteredTasks tasks "pending" ++ filteredTasks tasks "completed").Perm tasks := by
  rw [filteredTasks_pending, filteredTasks_completed]
  refine ⟨?_, ?_, List.filter_sublist _, List.filter_sublist _,
    filteredTasks_other tasks "all" (by decide) (by decide),
    fun f h1 h2 => filteredTasks_other tasks f h1 h2, ?_, ?_, ?_, ?_⟩
  · congr 1; funext t; cases t.completed <;> rfl
  · congr 1; funext t; cases t.completed <;> rfl
  · intro t; simp [List.mem_filter]
  · intro t; simp [List.mem_filter]
  · intro t; simp [List.mem_filter]
    intro _ h _; simp [h]
  · have := List.filter_append_perm (fun t : Task => t.completed) tasks
    exact (List.perm_append_comm.trans this)

/-! ## Bulk completion -/

theorem matches_empty (t : Task) : Query.matches {} t = true := rfl

theorem completeAll_tasks (s : Store) :
    (completeAll s).2.tasks = s.tasks.map (fun t => { t with completed := true }) := by
  simp only [completeAll, updateMany]
  apply List.map_congr_left
  intro t _
  simp [matches_empty, applySet]

/-- C9: after `PATCH /tasks/complete-all` every record has `completed = true`;
the records are the same ones in the same order, each agreeing with its former
self on every field other than `completed`; the reply is a 200 confirmation;
and applying the operation to its own result changes nothing. -/
theorem completeAll_spec (s : Store) :
    (completeAll s).1 = Reply.message 200 "All tasks marked as completed" ∧
    (∀ t ∈ (completeAll s).2.tasks, t.completed = true) ∧
    List.Forall₂ Task.AgreeExceptCompleted s.tasks (completeAll s).2.tasks ∧
    (completeAll s).2.nextId = s.nextId ∧
    (completeAll (completeAll s).2).2 = (completeAll s).2 := by
  refine ⟨rfl, ?_, ?_, rfl, ?_⟩
  · intro t ht
    rw [completeAll_tasks] at ht
    obtain ⟨u, _, rfl⟩ := List.mem_map.1 ht
    rfl
  · rw [completeAll_tasks]
    generalize s.tasks = l
    induction l with
    | nil => exact List.Forall₂.nil
    | cons a l ih =>
      exact List.Forall₂.cons ⟨rfl, rfl, rfl, rfl, rfl, rfl⟩ ih
  · have h1 := completeAll_tasks (completeAll s).2
    have h2 := completeAll_tasks s
    have h3 : (completeAll (completeAll s).2).2.nextId = (completeAll s).2.nextId := rfl
    have h4 : (completeAll (completeAll s).2).2.tasks = (completeAll s).2.tasks := by
      rw [h1, h2, List.map_map]
      rfl
    cases hs : (completeAll (completeAll s).2).2
    cases hs' : (completeAll s).2
    simp_all

/-! ## Reminder job -/

theorem matches_upcoming (now : Int) (t : Task) :
    Query.matches
      { dueDateGte := some now, dueDateLt := some (now + 60 * 60 * 1000),
        completed := some false } t = true ↔ dueWithinHour now t := by
  unfold Query.matches dueWithinHour
  cases hd : t.dueDate with
  | none => simp
  | some d =>
    simp only [Bool.and_eq_true, beq_iff_eq, decide_eq_true_eq, Bool.and_true]
    constructor
    · rintro ⟨⟨h1, h2⟩, h3⟩
      exact ⟨h1, d, rfl, h2, by omega⟩
    · rintro ⟨h1, d', hd', h2, h3⟩
      cases hd'
      exact ⟨⟨h1, h2⟩, by omega⟩

/-- C2: the tasks the reminder job selects are exactly the stored tasks with
`completed = false` and `now ≤ dueDate < now + 1 hour`, in store order, one log
line per selected task; a pending task due exactly at `now` is selected, one
due exactly at `now + 1 hour` is not, one without a due date is not; and the
job leaves the store as it was. -/
theorem reminderSweep_selects (now : Int) (s : Store) :
    (∀ t, t ∈ upcomingTasks now s ↔ t ∈ s.tasks ∧ dueWithinHour now t) ∧
    (upcomingTasks now s).Sublist s.tasks ∧
    (reminderSweep now s).1.length = (upcomingTasks now s).length ∧
    (∀ t ∈ s.tasks, t.completed = false → t.dueDate = some now → t ∈ upcomingTasks now s) ∧
    (∀ t, t.dueDate = some (now + 3600000) → t ∉ upcomingTasks now s) ∧
    (∀ t, t.dueDate = none → t ∉ upcomingTasks now s) ∧
    (∀ t, t.completed = true → t ∉ upcomingTasks now s) ∧
    (reminderSweep now s).2 = s := by
  have key : ∀ t, t ∈ upcomingTasks now s ↔ t ∈ s.tasks ∧ dueWithinHour now t := by
    intro t
    unfold upcomingTasks find
    rw [List.mem_filter, matches_upcoming]
  refine ⟨key, List.filter_sublist _, by simp [reminderSweep], ?_, ?_, ?_, ?_, rfl⟩
  · intro t ht hc hd
    exact (key t).2 ⟨ht, hc, now, hd, le_refl _, by omega⟩
  · intro t hd ht
    obtain ⟨_, _, d, hd', _, h⟩ := (key t).1 ht
    rw [hd] at hd'
    cases hd'
    omega
  · intro t hd ht
    obtain ⟨_, _, d, hd', _, _⟩ := (key t).1 ht
    rw [hd] at hd'
    cases hd'
  · intro t hc ht
    obtain ⟨_, hc', _⟩ := (key t).1 ht
    rw [hc] at hc'
    cases hc'

/-- The three tasks of the specification's example: due in 30 minutes and
pending, due in 90 minutes and pending, due in 30 minutes and completed. Only
the first is selected. -/
theorem reminderSweep_example :
    upcomingTasks 1000
      ⟨[⟨0, "a", false, some (1000 + 1800000), "Other", "None", 0⟩,
        ⟨1, "b", false, some (1000 + 5400000), "Other", "None", 0⟩,
        ⟨2, "c", true, some (1000 + 1800000), "Other", "None", 0⟩], 3⟩
      = [⟨0, "a", false, some (1000 + 1800000), "Other", "None", 0⟩] := by
  decide

/-! ## Lookup by identifier -/

theorem find?_split {α : Type} (p : α → Bool) :
    ∀ (l : List α) (t : α), l.find? p = some t →
      ∃ l1 l2, l = l1 ++ t :: l2 ∧ (∀ x ∈ l1, p x = false) ∧ p t = true
  | [], t, h => by simp at h
  | a :: l, t, h => by
    by_cases ha : p a = true
    · rw [List.find?_cons_of_pos _ ha] at h
      cases h
      exact ⟨[], l, rfl, by simp, ha⟩
    · rw [List.find?_cons_of_neg _ ha] at h
      obtain ⟨l1, l2, rfl, h1, h2⟩ := find?_split p l t h
      refine ⟨a :: l1, l2, rfl, ?_, h2⟩
      intro x hx
      rcases List.mem_cons.1 hx with rfl | hx
      · simpa using ha
      · exact h1 x hx

theorem updateFirst_split {α : Type} (p : α → Bool) (f : α → α) (t : α) (l2 : List α) :
    ∀ l1 : List α, (∀ x ∈ l1, p x = false) → p t = true →
      updateFirst p f (l1 ++ t :: l2) = l1 ++ f t :: l2
  | [], _, ht => by simp [updateFirst, ht]
  | a :: l1, h, ht => by
    have ha : p a = false := h a (List.mem_cons_self _ _)
    have ih := updateFirst_split p f t l2 l1 (fun x hx => h x (List.mem_cons_of_mem _ hx)) ht
    simp [updateFirst, ha, ih]

theorem eraseP_split {α : Type} (p : α → Bool) (t : α) (l2 : List α) :
    ∀ l1 : List α, (∀ x ∈ l1, p x = false) → p t = true →
      (l1 ++ t :: l2).eraseP p = l1 ++ l2
  | [], _, ht => by simp [List.eraseP_cons, ht]
  | a :: l1, h, ht => by
    have ha : p a = false := h a (List.mem_cons_self _ _)
    have ih := eraseP_split p t l2 l1 (fun x hx => h x (List.mem_cons_of_mem _ hx)) ht
    simp [List.eraseP_cons, ha, ih]

theorem find?_absent (l : List Task) (oid : Nat) (h : ∀ t ∈ l, t._id ≠ oid) :
    l.find? (fun t => t._id == oid) = none := by
  rw [List.find?_eq_none]
  intro t ht
  simpa using h t ht

theorem findById_found (s : Store) (id : String) (t : Task)
    (ht : findById s id = .ok (some t)) :
    ∃ oid, castObjectId id = .ok oid ∧ s.tasks.find? (fun t => t._id == oid) = some t := by
  unfold findById at ht
  cases hc : castObjectId id with
  | error e => simp [hc] at ht
  | ok oid =>
    refine ⟨oid, rfl, ?_⟩
    simp only [hc] at ht
    injection ht

/-! ## The text of an ObjectId -/

theorem hexDigitValue_hexChar (d : Nat) (h : d < 16) : hexDigitValue (hexChar d) = some d := by
  interval_cases d <;> decide

theorem parseHex_append (c : Char) :
    ∀ (l : List Char) (acc : Nat),
      parseHex acc (l ++ [c]) =
        (parseHex acc l).bind (fun a => (hexDigitValue c).map (fun d => a * 16 + d))
  | [], acc => by
    simp only [List.nil_append, parseHex]
    cases hexDigitValue c <;> rfl
  | a :: l, acc => by
    simp only [List.cons_append, parseHex]
    cases hexDigitValue a with
    | none => rfl
    | some d => exact parseHex_append c l _

theorem parseHex_hexDigits :
    ∀ (k n acc : Nat), parseHex acc (hexDigits k n) = some (acc * 16 ^ k + n % 16 ^ k)
  | 0, n, acc => by simp [hexDigits, parseHex, Nat.mod_one]
  | k + 1, n, acc => by
    rw [hexDigits, parseHex_append, parseHex_hexDigits k (n / 16) acc,
      hexDigitValue_hexChar _ (Nat.mod_lt _ (by decide))]
    simp only [Option.some_bind, Option.map_some']
    congr 1
    rw [pow_succ' 16 k, Nat.mod_mul]
    ring

theorem length_hexDigits : ∀ (k n : Nat), (hexDigits k n).length = k
  | 0, _ => rfl
  | k + 1, n => by simp [hexDigits, length_hexDigits k]

/-- The text of an ObjectId below `16 ^ 24` casts back to it. -/
theorem castObjectId_toHexString (oid : Nat) (h : oid < 16 ^ 24) :
    castObjectId (toHexString oid) = .ok oid := by
  have hl : (toHexString oid).length = 24 := length_hexDigits 24 oid
  have hp : parseHex 0 (toHexString oid).data = some oid := by
    show parseHex 0 (hexDigits 24 oid) = some oid
    rw [parseHex_hexDigits, Nat.mod_eq_of_lt h]
    simp
  simp only [castObjectId, hl, hp, if_true]

/-! ## Update -/

theorem putTask_found (s : Store) (id : String) (body : TaskFields) (t : Task)
    (ht : findById s id = .ok (some t)) :
    ∃ oid l1 l2, castObjectId id = .ok oid ∧ s.tasks = l1 ++ t :: l2 ∧
      (∀ x ∈ l1, x._id ≠ oid) ∧ t._id = oid ∧
      putTask s id body
        = (.task 200 (applySet body t), ⟨l1 ++ applySet body t :: l2, s.nextId⟩) := by
  obtain ⟨oid, hc, hf⟩ := findById_found s id t ht
  obtain ⟨l1, l2, hl, h1, h2⟩ := find?_split _ _ _ hf
  refine ⟨oid, l1, l2, hc, hl, ?_, by simpa using h2, ?_⟩
  · intro x hx
    simpa using h1 x hx
  · have hu := updateFirst_split (fun t => t._id == oid) (applySet body) t l2 l1 h1 h2
    rw [← hl] at hu
    have hb : putUpdate body = body := by cases body; rfl
    simp only [putTask, findByIdAndUpdate, hc, hf, hu, hb]

/-- On a store layer that drops `undefined` keys, `PUT /tasks/:id` on a task
that exists replies 200 with the updated record, which takes the place of the
old one; `_id` and `createdAt` are unchanged, every field absent from the body
has its prior value, every field present has the body's value, and every other
record is as before. -/
theorem putTask_frame (s : Store) (id : String) (body : TaskFields) (t : Task)
    (ht : findById s id = .ok (some t)) :
    ∃ t' l1 l2,
      putTask s id body = (.task 200 t', ⟨l1 ++ t' :: l2, s.nextId⟩) ∧
      s.tasks = l1 ++ t :: l2 ∧
      t'._id = t._id ∧ t'.createdAt = t.createdAt ∧
      (body.title = none → t'.title = t.title) ∧
      (body.completed = none → t'.completed = t.completed) ∧
      (body.dueDate = none → t'.dueDate = t.dueDate) ∧
      (body.category = none → t'.category = t.category) ∧
      (body.recurring = none → t'.recurring = t.recurring) ∧
      (∀ v, body.title = some v → t'.title = v) ∧
      (∀ v, body.completed = some v → t'.completed = v) ∧
      (∀ v, body.dueDate = some v → t'.dueDate = some v) ∧
      (∀ v, body.category = some v → t'.category = v) ∧
      (∀ v, body.recurring = some v → t'.recurring = v) := by
  obtain ⟨_, l1, l2, _, hl, _, _, hp⟩ := putTask_found s id body t ht
  refine ⟨applySet body t, l1, l2, hp, hl, rfl, rfl, ?_, ?_, ?_, ?_, ?_, ?_, ?_, ?_, ?_, ?_⟩
  · intro h; simp [applySet, h]
  · intro h; simp [applySet, h]
  · intro h; simp [applySet, h]
  · intro h; simp [applySet, h]
  · intro h; simp [applySet, h]
  · intro v h; simp [applySet, h]
  · intro v h; simp [applySet, h]
  · intro v h; simp [applySet, h]
  · intro v h; simp [applySet, h]
  · intro v h; simp [applySet, h]

theorem setDocument_dropped (u : TaskFields) (t : Task) :
    setDocument .dropped u t.toDocument = (applySet u t).toDocument := by
  cases u with
  | mk a b c d e =>
    cases a <;> cases b <;> cases c <;> cases d <;> cases e <;> rfl

/-- C3, as amended: on a store layer that drops `undefined` keys from an update,
for a document that exists and a body holding any subset of the mutable fields,
`PUT /tasks/:id` replies 200 with the updated document, which takes the place
of the old one; `_id` and `createdAt` are unchanged, every field absent from
the body has exactly its prior value, every field present has the body's
value, and every other document, and the order of documents, is as before. -/
theorem putRaw_frame (mode : UndefinedKeys) (docs : List Document) (id : String) (oid : Nat)
    (body : TaskFields) (d : Document) (hmode : mode = .dropped)
    (hid : castObjectId id = .ok oid)
    (hd : docs.find? (fun x => x._id == oid) = some d) :
    ∃ d' l1 l2,
      putRaw mode docs id body = (.document 200 d', l1 ++ d' :: l2) ∧
      docs = l1 ++ d :: l2 ∧
      d'._id = d._id ∧ d'.createdAt = d.createdAt ∧
      (body.title = none → d'.title = d.title) ∧
      (body.completed = none → d'.completed = d.completed) ∧
      (body.dueDate = none → d'.dueDate = d.dueDate) ∧
      (body.category = none → d'.category = d.category) ∧
      (body.recurring = none → d'.recurring = d.recurring) ∧
      (∀ v, body.title = some v → d'.title = some v) ∧
      (∀ v, body.completed = some v → d'.completed = some v) ∧
      (∀ v, body.dueDate = some v → d'.dueDate = some v) ∧
      (∀ v, body.category = some v → d'.category = some v) ∧
      (∀ v, body.recurring = some v → d'.recurring = some v) := by
  subst hmode
  obtain ⟨l1, l2, hl, h1, h2⟩ := find?_split _ _ _ hd
  have hu := updateFirst_split (fun x : Document => x._id == oid)
    (setDocument .dropped (putUpdate body)) d l2 l1 h1 h2
  rw [← hl] at hu
  refine ⟨setDocument .dropped (putUpdate body) d, l1, l2, ?_, hl, rfl, rfl,
    ?_, ?_, ?_, ?_, ?_, ?_, ?_, ?_, ?_, ?_⟩
  · simp only [putRaw, hid, hd, hu]
  · intro h; simp [setDocument, putUpdate, setPath, h]
  · intro h; simp [setDocument, putUpdate, setPath, h]
  · intro h; simp [setDocument, putUpdate, setPath, h]
  · intro h; simp [setDocument, putUpdate, setPath, h]
  · intro h; simp [setDocument, putUpdate, setPath, h]
  · intro v h; simp [setDocument, putUpdate, setPath, h]
  · intro v h; simp [setDocument, putUpdate, setPath, h]
  · intro v h; simp [setDocument, putUpdate, setPath, h]
  · intro v h; simp [setDocument, putUpdate, setPath, h]
  · intro v h; simp [setDocument, putUpdate, setPath, h]

/-- C3 at the toggle request of the client, `{ completed: true }`, on a store
layer that drops `undefined` keys: title, due date, category and recurrence
stay as they were. -/
theorem putRaw_frame_witness :
    ∃ d' l1 l2,
      putRaw .dropped [⟨0, some "a", some false, some 5, some "Work", some "Daily", 1⟩]
          "000000000000000000000000" { completed := some true }
        = (.document 200 d', l1 ++ d' :: l2) ∧
      d'.title = some "a" ∧ d'.dueDate = some 5 ∧ d'.category = some "Work" ∧
      d'.recurring = some "Daily" ∧ d'.completed = some true := by
  obtain ⟨d', l1, l2, h, _, _, _, h1, _, h3, h4, h5, _, h7, _⟩ :=
    putRaw_frame .dropped [⟨0, some "a", some false, some 5, some "Work", some "Daily", 1⟩]
      "000000000000000000000000" 0 { completed := some true }
      ⟨0, some "a", some false, some 5, some "Work", some "Daily", 1⟩ rfl rfl rfl
  exact ⟨d', l1, l2, h, h1 rfl, h3 rfl, h4 rfl, h5 rfl, h7 true rfl⟩

/-- C3 as stated fails on a store layer that writes `undefined` keys as null:
the toggle request `{ completed: true }` on the stored form of a task created
with title "a", due date 5, category Work and recurring Daily is answered 200
with title, due date, category and recurring all null, and that is the
document left in the store. -/
theorem putRaw_counterexample :
    (postTask 1 Store.empty
        { title := some "a", dueDate := some 5, category := some "Work",
          recurring := some "Daily" }).2.tasks.map Task.toDocument
      = [⟨0, some "a", some false, some 5, some "Work", some "Daily", 1⟩] ∧
    putRaw .writtenAsNull [⟨0, some "a", some false, some 5, some "Work", some "Daily", 1⟩]
        "000000000000000000000000" { completed := some true }
      = (.document 200 ⟨0, none, some true, none, none, none, 1⟩,
          [⟨0, none, some true, none, none, none, 1⟩]) := by
  decide

/-! ## Lookup by identifier: found, not found, not an identifier -/

theorem findById_absent (s : Store) (id : String) (oid : Nat)
    (hid : castObjectId id = .ok oid) (h : ∀ t ∈ s.tasks, t._id ≠ oid) :
    findById s id = .ok none := by
  simp only [findById, hid, find?_absent s.tasks oid h]

/-- For a route parameter that is the text of an ObjectId: when it matches no
record, get, update and delete each reply 404 and leave the store as it was;
when it matches, get replies with that record, update replies with the updated
record put in its place, and delete removes that record and no other. -/
theorem byId_wellFormed (s : Store) (id : String) (oid : Nat) (body : TaskFields)
    (hid : castObjectId id = .ok oid) :
    ((∀ t ∈ s.tasks, t._id ≠ oid) →
      getTask s id = (.message 404 "Task not found", s) ∧
      putTask s id body = (.message 404 "Task not found", s) ∧
      deleteTask s id = (.message 404 "Task not found", s)) ∧
    (∀ t, findById s id = .ok (some t) →
      t ∈ s.tasks ∧ t._id = oid ∧
      getTask s id = (.task 200 t, s) ∧
      ∃ l1 l2, s.tasks = l1 ++ t :: l2 ∧
        (∃ t', t'._id = oid ∧
          putTask s id body = (.task 200 t', ⟨l1 ++ t' :: l2, s.nextId⟩)) ∧
        deleteTask s id
          = (.message 200 "Task deleted successfully", ⟨l1 ++ l2, s.nextId⟩)) := by
  constructor
  · intro h
    have hf := find?_absent s.tasks oid h
    refine ⟨?_, ?_, ?_⟩
    · simp only [getTask, findById_absent s id oid hid h]
    · simp only [putTask, findByIdAndUpdate, hid, hf]
    · simp only [deleteTask, findByIdAndDelete, hid, hf]
  · intro t ht
    obtain ⟨oid', l1, l2, hc, hl, hl1, hoid, hp⟩ := putTask_found s id body t ht
    have he : oid' = oid := by
      rw [hid] at hc
      injection hc with hc
      exact hc.symm
    subst he
    have hmem : t ∈ s.tasks := by rw [hl]; simp
    refine ⟨hmem, hoid, ?_, l1, l2, hl, ⟨applySet body t, hoid, hp⟩, ?_⟩
    · simp only [getTask, ht]
    · obtain ⟨oid2, hc2, hf⟩ := findById_found s id t ht
      have he2 : oid2 = oid' := by
        rw [hid] at hc2
        injection hc2 with hc2
        exact hc2.symm
      subst he2
      have h1 : ∀ x ∈ l1, (fun t : Task => t._id == oid2) x = false := by
        intro x hx
        simpa using hl1 x hx
      have hu := eraseP_split (fun t => t._id == oid2) t l2 l1 h1 (by simpa using hoid)
      rw [← hl] at hu
      simp only [deleteTask, findByIdAndDelete, hid, hf, hu]

/-- C7 at the failing input: the route parameter `abc` matches no record of
any store, yet get, update and delete do not reply 404: the cast to ObjectId
fails, the store call rejects before the handler's null check, the handler
writes no reply of its own, and the store is as it was. -/
theorem byId_malformed_rejects (s : Store) (body : TaskFields) :
    castObjectId "abc" = .error .castError ∧
    getTask s "abc" = (.rejected .castError, s) ∧
    putTask s "abc" body = (.rejected .castError, s) ∧
    deleteTask s "abc" = (.rejected .castError, s) ∧
    (getTask s "abc").1.status ≠ some 404 ∧
    (putTask s "abc" body).1.status ≠ some 404 ∧
    (deleteTask s "abc").1.status ≠ some 404 := by
  have hc : castObjectId "abc" = .error .castError := rfl
  have h1 : getTask s "abc" = (.rejected .castError, s) := by
    simp only [getTask, findById, hc]
  have h2 : putTask s "abc" body = (.rejected .castError, s) := by
    simp only [putTask, findByIdAndUpdate, hc]
  have h3 : deleteTask s "abc" = (.rejected .castError, s) := by
    simp only [deleteTask, findByIdAndDelete, hc]
  refine ⟨hc, h1, h2, h3, ?_, ?_, ?_⟩
  · rw [h1]; simp [Reply.status]
  · rw [h2]; simp [Reply.status]
  · rw [h3]; simp [Reply.status]

/-! ## Create -/

theorem validate_iff (t : Task) : validate t = true ↔ t.Valid := by
  simp [validate, Task.Valid, and_assoc]

theorem postTask_missing_title (now : Int) (s : Store) (body : TaskFields)
    (h : body.title = none ∨ body.title = some "") :
    postTask now s body = (.message 400 "Title is required", s) := by
  rcases h with h | h <;> simp [postTask, titleFalsy, h]

/-- The record `POST /tasks` builds from a body with the given title. -/
theorem postTask_built (now : Int) (s : Store) (body : TaskFields) (title : String)
    (ht : body.title = some title) (hne : title ≠ "") :
    postTask now s body =
      (match save { s with nextId := s.nextId + 1 }
          ⟨s.nextId, title, body.completed.getD false, body.dueDate,
            body.category.getD "Other", body.recurring.getD "None", now⟩ with
        | .error e => (.rejected e, { s with nextId := s.nextId + 1 })
        | .ok s2 =>
          (.task 201 ⟨s.nextId, title, body.completed.getD false, body.dueDate,
            body.category.getD "Other", body.recurring.getD "None", now⟩, s2)) := by
  simp [postTask, titleFalsy, ht, hne, newTask]

theorem postTask_valid (now : Int) (s : Store) (body : TaskFields) (title : String)
    (ht : body.title = some title) (hne : title ≠ "")
    (hc : ∀ c, body.category = some c → c ∈ categoryEnum)
    (hr : ∀ r, body.recurring = some r → r ∈ recurringEnum) :
    postTask now s body =
      (.task 201 ⟨s.nextId, title, body.completed.getD false, body.dueDate,
          body.category.getD "Other", body.recurring.getD "None", now⟩,
        ⟨s.tasks ++ [⟨s.nextId, title, body.completed.getD false, body.dueDate,
          body.category.getD "Other", body.recurring.getD "None", now⟩], s.nextId + 1⟩) := by
  rw [postTask_built now s body title ht hne]
  have hv : validate ⟨s.nextId, title, body.completed.getD false, body.dueDate,
      body.category.getD "Other", body.recurring.getD "None", now⟩ = true := by
    rw [validate_iff]
    refine ⟨hne, ?_, ?_⟩
    · cases h : body.category with
      | none => simp [categoryEnum]
      | some c => simpa using hc c h
    · cases h : body.recurring with
      | none => simp [recurringEnum]
      | some r => simpa using hr r h
  simp [save, hv]

theorem postTask_invalid (now : Int) (s : Store) (body : TaskFields) (title : String)
    (ht : body.title = some title) (hne : title ≠ "")
    (h : (∃ c, body.category = some c ∧ c ∉ categoryEnum) ∨
      (∃ r, body.recurring = some r ∧ r ∉ recurringEnum)) :
    postTask now s body = (.rejected .validationError, ⟨s.tasks, s.nextId + 1⟩) := by
  rw [postTask_built now s body title ht hne]
  have hv : validate ⟨s.nextId, title, body.completed.getD false, body.dueDate,
      body.category.getD "Other", body.recurring.getD "None", now⟩ = false := by
    rw [← Bool.not_eq_true, validate_iff]
    rintro ⟨_, h1, h2⟩
    rcases h with ⟨c, hc, hn⟩ | ⟨r, hr, hn⟩
    · simp only [hc, Option.getD_some] at h1
      exact hn h1
    · simp only [hr, Option.getD_some] at h2
      exact hn h2
  simp [save, hv]

/-- C4, as amended: a body whose title is absent or the empty string is
answered 400 and the store is exactly as before; a body with a non-empty title
whose category and recurring are absent or members of their enumerations is
answered 201 and exactly one record, the one in the reply, is added at the end
of the collection; a body with a non-empty title whose category or recurring
lies outside its enumeration is not answered (the save rejects with a
validation error) and no record is added. -/
theorem postTask_validation (now : Int) (s : Store) (body : TaskFields) :
    (body.title = none ∨ body.title = some "" →
      postTask now s body = (.message 400 "Title is required", s)) ∧
    (∀ title, body.title = some title → title ≠ "" →
      (∀ c, body.category = some c → c ∈ categoryEnum) →
      (∀ r, body.recurring = some r → r ∈ recurringEnum) →
      ∃ t, postTask now s body = (.task 201 t, ⟨s.tasks ++ [t], s.nextId + 1⟩)) ∧
    (∀ title, body.title = some title → title ≠ "" →
      ((∃ c, body.category = some c ∧ c ∉ categoryEnum) ∨
        (∃ r, body.recurring = some r ∧ r ∉ recurringEnum)) →
      (postTask now s body).1 = .rejected .validationError ∧
      (postTask now s body).2.tasks = s.tasks) := by
  refine ⟨postTask_missing_title now s body, ?_, ?_⟩
  · intro title ht hne hc hr
    exact ⟨_, postTask_valid now s body title ht hne hc hr⟩
  · intro title ht hne h
    rw [postTask_invalid now s body title ht hne h]
    exact ⟨rfl, rfl⟩

/-- C4 at concrete bodies: an empty title is answered 400, a plain title 201. -/
theorem postTask_validation_witness :
    postTask 9 Store.empty { title := some "" } = (.message 400 "Title is required", Store.empty) ∧
    ∃ t, postTask 9 Store.empty { title := some "a" } = (.task 201 t, ⟨[] ++ [t], 0 + 1⟩) :=
  ⟨(postTask_validation 9 Store.empty { title := some "" }).1 (Or.inr rfl),
    (postTask_validation 9 Store.empty { title := some "a" }).2.1 "a" rfl (by decide)
      (by intro c h; cases h) (by intro r h; cases h)⟩

/-- C4 as stated fails: a body with the non-empty title "a" and a category
outside the enumeration is not answered 201 and no record is added. -/
theorem postTask_counterexample :
    (postTask 9 Store.empty { title := some "a", category := some "Bogus" }).1.status ≠ some 201 ∧
    (postTask 9 Store.empty { title := some "a", category := some "Bogus" }).2.tasks = [] := by
  decide

/-- Under the schema of `index.js`, which declares no enumerated field, create
answers 400 and stores nothing when the title is absent or empty, and answers
201 and adds exactly one record for every non-empty title. -/
theorem indexJs_postTask_validation (s : IndexJs.Store) (body : TaskFields) :
    (body.title = none ∨ body.title = some "" →
      IndexJs.postTask s body = (.message 400 "Title is required", s)) ∧
    (∀ title, body.title = some title → title ≠ "" →
      ∃ t, IndexJs.postTask s body = (.task 201 t, ⟨s.tasks ++ [t], s.nextId + 1⟩)) := by
  constructor
  · intro h
    rcases h with h | h <;> simp [IndexJs.postTask, titleFalsy, h]
  · intro title ht hne
    refine ⟨⟨s.nextId, title, body.completed.getD false, body.dueDate⟩, ?_⟩
    simp [IndexJs.postTask, titleFalsy, ht, hne, IndexJs.save, IndexJs.validate]

/-! ## Create, then get -/

theorem getTask_last (l : List Task) (t : Task) (n : Nat) (id : String)
    (hid : castObjectId id = .ok t._id) (h : ∀ x ∈ l, x._id ≠ t._id) :
    getTask ⟨l ++ [t], n⟩ id = (.task 200 t, ⟨l ++ [t], n⟩) := by
  have hf : (l ++ [t]).find? (fun x => x._id == t._id) = some t := by
    rw [List.find?_append, find?_absent l t._id h]
    simp
  simp only [getTask, findById, hid, hf]

theorem postTask_created (now : Int) (s : Store) (body : TaskFields) (t : Task) (s' : Store)
    (h : postTask now s body = (.task 201 t, s')) :
    ∃ title, body.title = some title ∧ title ≠ "" ∧
      t = ⟨s.nextId, title, body.completed.getD false, body.dueDate,
        body.category.getD "Other", body.recurring.getD "None", now⟩ ∧
      s' = ⟨s.tasks ++ [t], s.nextId + 1⟩ := by
  cases ht : body.title with
  | none =>
    rw [postTask_missing_title now s body (Or.inl ht)] at h
    simp at h
  | some title =>
    by_cases hne : title = ""
    · rw [postTask_missing_title now s body (Or.inr (hne ▸ ht))] at h
      simp at h
    · rw [postTask_built now s body title ht hne] at h
      by_cases hv : validate ⟨s.nextId, title, body.completed.getD false, body.dueDate,
          body.category.getD "Other", body.recurring.getD "None", now⟩ = true
      · simp only [save, hv, if_true, Prod.mk.injEq, Reply.task.injEq, true_and] at h
        obtain ⟨h1, h2⟩ := h
        refine ⟨title, rfl, hne, h1.symm, ?_⟩
        rw [← h2, h1]
      · simp [save, hv] at h

/-- C8: whenever create replies with a record, on a store whose identifiers
were drawn from the generator, get-by-id on any text of the returned
identifier (its 24-digit text in particular) replies with the same record; the
request then had a non-empty title, the record's supplied fields equal the
request's values, and its omitted fields take the defaults
`completed = false`, `dueDate` absent, `category = Other`,
`recurring = None`. -/
theorem create_get_roundtrip (now : Int) (s : Store) (body : TaskFields) (t : Task)
    (s' : Store) (hwf : s.WF) (h : postTask now s body = (.task 201 t, s')) :
    (∀ id, castObjectId id = .ok t._id → getTask s' id = (.task 200 t, s')) ∧
    (t._id < 16 ^ 24 → getTask s' (toHexString t._id) = (.task 200 t, s')) ∧
    body.title = some t.title ∧ t.title ≠ "" ∧
    (∀ v, body.completed = some v → t.completed = v) ∧
    (body.completed = none → t.completed = false) ∧
    t.dueDate = body.dueDate ∧
    (∀ v, body.category = some v → t.category = v) ∧
    (body.category = none → t.category = "Other") ∧
    (∀ v, body.recurring = some v → t.recurring = v) ∧
    (body.recurring = none → t.recurring = "None") := by
  obtain ⟨title, ht, hne, ht', hs'⟩ := postTask_created now s body t s' h
  have hidt : t._id = s.nextId := by rw [ht']
  have hget : ∀ id, castObjectId id = .ok t._id → getTask s' id = (.task 200 t, s') := by
    intro id hid
    rw [hs']
    apply getTask_last _ _ _ _ hid
    intro x hx
    rw [hidt]
    exact Nat.ne_of_lt (hwf x hx)
  refine ⟨hget, fun hlt => hget _ (castObjectId_toHexString _ hlt), ?_, ?_,
    ?_, ?_, ?_, ?_, ?_, ?_, ?_⟩
  · rw [ht, ht']
  · rw [ht']; exact hne
  · intro v h; rw [ht']; simp [h]
  · intro h; rw [ht']; simp [h]
  · rw [ht']
  · intro v h; rw [ht']; simp [h]
  · intro h; rw [ht']; simp [h]
  · intro v h; rw [ht']; simp [h]
  · intro h; rw [ht']; simp [h]

/-- C8 at a concrete request: only the title and a due date are supplied. -/
theorem create_get_roundtrip_witness :
    getTask ⟨[⟨0, "a", false, some 40, "Other", "None", 9⟩], 1⟩ "000000000000000000000000"
      = (.task 200 ⟨0, "a", false, some 40, "Other", "None", 9⟩,
          ⟨[⟨0, "a", false, some 40, "Other", "None", 9⟩], 1⟩) :=
  (create_get_roundtrip 9 Store.empty { title := some "a", dueDate := some 40 }
    ⟨0, "a", false, some 40, "Other", "None", 9⟩
    ⟨[⟨0, "a", false, some 40, "Other", "None", 9⟩], 1⟩
    (by intro t h; cases h) rfl).1 "000000000000000000000000" rfl

/-! ## Validation is skipped on update -/

/-- C5 at the failing input: from the empty store, a valid create followed by
`PUT` with a category outside the enumeration, or with an empty title, is
answered 200 and leaves a stored record that is not valid. -/
theorem putTask_stores_invalid :
    (putTask (postTask 9 Store.empty { title := some "a" }).2 "000000000000000000000000"
        { category := some "Bogus" }) =
      (.task 200 ⟨0, "a", false, none, "Bogus", "None", 9⟩,
        ⟨[⟨0, "a", false, none, "Bogus", "None", 9⟩], 1⟩) ∧
    (putTask (postTask 9 Store.empty { title := some "a" }).2 "000000000000000000000000"
        { title := some "" }) =
      (.task 200 ⟨0, "", false, none, "Other", "None", 9⟩,
        ⟨[⟨0, "", false, none, "Other", "None", 9⟩], 1⟩) ∧
    (∃ t ∈ (runOps Store.empty
        [.create 9 { title := some "a" },
          .update "000000000000000000000000" { category := some "Bogus" }]).tasks,
      ¬ t.Valid) ∧
    (∃ t ∈ (runOps Store.empty
        [.create 9 { title := some "a" },
          .update "000000000000000000000000" { title := some "" }]).tasks,
      ¬ t.Valid) := by
  refine ⟨by decide, by decide,
    ⟨⟨0, "a", false, none, "Bogus", "None", 9⟩, by decide, ?_⟩,
    ⟨⟨0, "", false, none, "Other", "None", 9⟩, by decide, ?_⟩⟩
  · rw [← validate_iff]; decide
  · rw [← validate_iff]; decide

/-! ## Date arithmetic of the recurrence job -/

theorem MonthFromTime_range (t : Int) : 0 ≤ MonthFromTime t ∧ MonthFromTime t ≤ 11 := by
  unfold MonthFromTime
  dsimp only
  omega

/-- Setting the day of the month to the current one plus `k` moves the local
time by `k` days; the result is that local time read back as a time value. -/
theorem setDate_getDate_add (tz : TimeZone) (t k : Int) :
    setDate tz t (getDate tz t + k) = TimeClip (UTC tz (LocalTime tz t + k * 86400000)) := by
  have hm := MonthFromTime_range (LocalTime tz t)
  have h1 : MonthFromTime (LocalTime tz t) / 12 = 0 := by omega
  have h2 : MonthFromTime (LocalTime tz t) % 12 = MonthFromTime (LocalTime tz t) := by omega
  unfold setDate getDate
  dsimp only
  congr 2
  generalize LocalTime tz t = lt at h1 h2 ⊢
  simp only [MakeDay, MakeDate, DateFromTime, DayWithinYear, h1, h2,
    InLeapYear, add_zero, Day, TimeWithinDay, msPerDay]
  generalize daysBeforeMonth _ _ = b
  generalize DayFromYear _ = y
  omega

/-- In a zone of fixed offset the daily and weekly advances add that many days
to the time value. -/
theorem setDate_fixed (offset t k : Int) :
    setDate (TimeZone.fixed offset) t (getDate (TimeZone.fixed offset) t + k)
      = TimeClip (t + k * 86400000) := by
  rw [setDate_getDate_add]
  congr 1
  simp only [UTC, LocalTime, TimeZone.fixed]
  omega

/-! ## Calendar facts behind the monthly advance -/

theorem YearFromDay_spec (d : Int) :
    DayFromYear (YearFromDay d) ≤ d ∧ d < DayFromYear (YearFromDay d + 1) := by
  unfold YearFromDay
  simp only []
  generalize hy : 1970 + 400 * d / 146097 = y
  have h1 : 146097 * (y - 1970) ≤ 400 * d := by omega
  have h2 : 400 * d < 146097 * (y - 1970) + 146097 := by omega
  clear hy
  split_ifs with ha hb
  · refine ⟨ha, ?_⟩
    unfold DayFromYear; omega
  · have e : y - 1 + 1 = y := by ring
    rw [e]
    refine ⟨?_, hb⟩
    unfold DayFromYear; omega
  · exact ⟨by omega, by omega⟩

theorem DayFromYear_succ (y : Int) : DayFromYear (y + 1) = DayFromYear y + DaysInYear y := by
  unfold DayFromYear DaysInYear
  omega

theorem DaysInYear_pos (y : Int) : 365 ≤ DaysInYear y ∧ DaysInYear y ≤ 366 := by
  unfold DaysInYear
  omega

theorem DayFromYear_mono_nat (y : Int) (n : Nat) : DayFromYear y ≤ DayFromYear (y + n) := by
  induction n with
  | zero => simp
  | succ n ih =>
    have h := DayFromYear_succ (y + n)
    have h2 := DaysInYear_pos (y + n)
    have e : y + ((n + 1 : Nat) : Int) = y + n + 1 := by push_cast; ring
    rw [e, h]
    omega

theorem DayFromYear_mono {y z : Int} (h : y ≤ z) : DayFromYear y ≤ DayFromYear z := by
  have := DayFromYear_mono_nat y (z - y).toNat
  have e : y + ((z - y).toNat : Int) = z := by omega
  rwa [e] at this

theorem YearFromDay_unique (d y : Int) (h1 : DayFromYear y ≤ d) (h2 : d < DayFromYear (y + 1)) :
    YearFromDay d = y := by
  obtain ⟨s1, s2⟩ := YearFromDay_spec d
  generalize YearFromDay d = z at s1 s2
  by_contra hne
  rcases lt_or_gt_of_ne hne with h | h
  · have := DayFromYear_mono (show z + 1 ≤ y by omega)
    omega
  · have := DayFromYear_mono (show y + 1 ≤ z by omega)
    omega

theorem DayWithinYear_range (t : Int) :
    0 ≤ DayWithinYear t ∧ DayWithinYear t < DaysInYear (YearFromTime t) := by
  have h := YearFromDay_spec (Day t)
  have h2 := DayFromYear_succ (YearFromDay (Day t))
  unfold DayWithinYear YearFromTime
  omega

/-- The time value built from a day number and a time within the day lies on
that day, when the year of the day number is known. -/
theorem fields_of_MakeDate (y off tw : Int) (h0 : 0 ≤ off) (h1 : off < DaysInYear y)
    (htw : 0 ≤ tw ∧ tw < 86400000) :
    YearFromTime (MakeDate (DayFromYear y + off) tw) = y ∧
    DayWithinYear (MakeDate (DayFromYear y + off) tw) = off ∧
    TimeWithinDay (MakeDate (DayFromYear y + off) tw) = tw := by
  have hday : Day (MakeDate (DayFromYear y + off) tw) = DayFromYear y + off := by
    unfold Day MakeDate msPerDay
    omega
  have hy : YearFromTime (MakeDate (DayFromYear y + off) tw) = y := by
    unfold YearFromTime
    rw [hday]
    apply YearFromDay_unique
    · omega
    · rw [DayFromYear_succ]; omega
  refine ⟨hy, ?_, ?_⟩
  · unfold DayWithinYear
    rw [hday, hy]
    omega
  · unfold TimeWithinDay MakeDate msPerDay
    omega

/-- Month and day of month of the day that lies `date - 1` days after the
start of month `mn`, for a day of month up to 28. -/
theorem month_of_offset (mn leap date dwy : Int) (hl : leap = 0 ∨ leap = 1)
    (hmn : 0 ≤ mn ∧ mn ≤ 11) (hd : 1 ≤ date ∧ date ≤ 28)
    (hdwy : dwy = daysBeforeMonth mn leap + date - 1) :
    (if dwy < 31 then 0
      else if dwy < 59 + leap then 1
      else if dwy < 90 + leap then 2
      else if dwy < 120 + leap then 3
      else if dwy < 151 + leap then 4
      else if dwy < 181 + leap then 5
      else if dwy < 212 + leap then 6
      else if dwy < 243 + leap then 7
      else if dwy < 273 + leap then 8
      else if dwy < 304 + leap then 9
      else if dwy < 334 + leap then 10
      else (11 : Int)) = mn := by
  unfold daysBeforeMonth at hdwy
  omega

/-- Advancing the month by one from a day of month up to 28 gives the local
time with the same day of month and time of day in the next calendar month,
read back as a time value. -/
theorem setMonth_next (tz : TimeZone) (t : Int) (h : getDate tz t ≤ 28) :
    ∃ lt' : Int, setMonth tz t (getMonth tz t + 1) = TimeClip (UTC tz lt') ∧
      DateFromTime lt' = getDate tz t ∧
      MonthFromTime lt' = (getMonth tz t + 1) % 12 ∧
      YearFromTime lt' = YearFromTime (LocalTime tz t) + (getMonth tz t + 1) / 12 ∧
      TimeWithinDay lt' = TimeWithinDay (LocalTime tz t) := by
  generalize hlt : LocalTime tz t = lt at h ⊢
  have hM := MonthFromTime_range lt
  have hdwy := DayWithinYear_range lt
  have hL : InLeapYear lt = 0 ∨ InLeapYear lt = 1 := by
    unfold InLeapYear; split_ifs <;> simp
  have hD1 : 1 ≤ DateFromTime lt := by
    unfold DateFromTime MonthFromTime daysBeforeMonth
    dsimp only
    omega
  have hD2 : DateFromTime lt ≤ 28 := by
    simpa [getDate, hlt] using h
  have hgm : getMonth tz t = MonthFromTime lt := by simp [getMonth, hlt]
  have hgd : getDate tz t = DateFromTime lt := by simp [getDate, hlt]
  rw [hgm, hgd]
  generalize hY : YearFromTime lt = Y
  generalize hMM : MonthFromTime lt = M at hM ⊢
  generalize hDD : DateFromTime lt = D at hD1 hD2 ⊢
  have htw : 0 ≤ TimeWithinDay lt ∧ TimeWithinDay lt < 86400000 := by
    unfold TimeWithinDay msPerDay; omega
  generalize hTW : TimeWithinDay lt = tw at htw ⊢
  have hloc : setMonth tz t (M + 1)
      = TimeClip (UTC tz (MakeDate (DayFromYear (Y + (M + 1) / 12)
          + (daysBeforeMonth ((M + 1) % 12)
              (if DaysInYear (Y + (M + 1) / 12) = 366 then 1 else 0) + D - 1)) tw)) := by
    unfold setMonth
    dsimp only
    rw [hlt, hY, hDD, hTW]
    congr 2
    unfold MakeDay MakeDate
    dsimp only
    ring
  generalize hym : Y + (M + 1) / 12 = ym at hloc ⊢
  generalize hmn : (M + 1) % 12 = mn at hloc ⊢
  have hmnr : 0 ≤ mn ∧ mn ≤ 11 := by omega
  generalize hL2 : (if DaysInYear ym = 366 then (1 : Int) else 0) = L2 at hloc
  have hL2r : L2 = 0 ∨ L2 = 1 := by
    rw [← hL2]; split_ifs <;> simp
  have hyl := DaysInYear_pos ym
  have hoff0 : 0 ≤ daysBeforeMonth mn L2 + D - 1 := by
    unfold daysBeforeMonth; omega
  have hoff1 : daysBeforeMonth mn L2 + D - 1 < DaysInYear ym := by
    unfold daysBeforeMonth; omega
  obtain ⟨f1, f2, f3⟩ := fields_of_MakeDate ym _ tw hoff0 hoff1 htw
  generalize MakeDate (DayFromYear ym + (daysBeforeMonth mn L2 + D - 1)) tw = lt'
    at hloc f1 f2 f3
  have hleap : InLeapYear lt' = L2 := by
    unfold InLeapYear
    rw [f1, hL2]
  have hmonth : MonthFromTime lt' = mn := by
    unfold MonthFromTime
    dsimp only
    rw [f2, hleap]
    exact month_of_offset mn L2 D _ hL2r hmnr ⟨hD1, hD2⟩ rfl
  refine ⟨lt', hloc, ?_, hmonth, f1, f3⟩
  unfold DateFromTime
  rw [hmonth, f2, hleap]
  omega

/-- Month ends roll over: in UTC, one month after 2024-01-31T00:00:00Z is
2024-03-02T00:00:00Z, since February 2024 has 29 days; from 2024-01-15 the
advance gives 2024-02-15; and a day after the last valid time value is Invalid
Date. -/
theorem setMonth_examples :
    setMonth (TimeZone.fixed 0) 1706659200000 (getMonth (TimeZone.fixed 0) 1706659200000 + 1)
      = some 1709337600000 ∧
    setMonth (TimeZone.fixed 0) 1705276800000 (getMonth (TimeZone.fixed 0) 1705276800000 + 1)
      = some 1707955200000 ∧
    setDate (TimeZone.fixed 0) 8640000000000000
        (getDate (TimeZone.fixed 0) 8640000000000000 + 1) = none := by
  decide

/-! ## Recurrence job -/

theorem validate_regenerate (now : Int) (oid : Nat) (t : Task) (d : Int) :
    validate (regenerate now oid t d) = validate t := rfl

theorem regenerateStep_eq (tz : TimeZone) (now : Int) (s : Store) (t : Task) :
    regenerateStep tz now s t
      = ⟨s.tasks ++ (copyOf tz now s.nextId t).toList, s.nextId + 1⟩ := by
  unfold regenerateStep saveCopy copyOf
  cases newDueDate tz t with
  | none => simp
  | some d =>
    by_cases hv : validate (regenerate now s.nextId t d) = true
    · simp [save, hv]
    · simp [save, hv]

theorem foldl_regenerateStep (tz : TimeZone) (now : Int) :
    ∀ (l : List Task) (s : Store),
      l.foldl (regenerateStep tz now) s
        = ⟨s.tasks ++ savedCopies tz now s.nextId l, s.nextId + l.length⟩
  | [], s => by simp [savedCopies]
  | t :: l, s => by
    rw [List.foldl_cons, foldl_regenerateStep tz now l, regenerateStep_eq]
    simp [savedCopies, Nat.add_assoc, Nat.add_comm 1]

theorem recurrenceSweep_eq (tz : TimeZone) (now : Int) (s : Store) :
    recurrenceSweep tz now s
      = ⟨s.tasks ++ savedCopies tz now s.nextId (find s { recurringNe := some "None" }),
          s.nextId + (find s { recurringNe := some "None" }).length⟩ :=
  foldl_regenerateStep tz now _ s

/-- The run in which the saves land in order is one of the runs the job can
make. -/
theorem sweepsTo_recurrenceSweep (tz : TimeZone) (now : Int) (s : Store) :
    SweepsTo tz now s (recurrenceSweep tz now s) :=
  ⟨_, recurrenceSweep_eq tz now s, List.Subperm.refl _, fun _ => List.Perm.refl _⟩

theorem mem_savedCopies (tz : TimeZone) (now : Int) :
    ∀ (l : List Task) (c : Nat) (n : Task), n ∈ savedCopies tz now c l →
      ∃ t ∈ l, ∃ oid d, c ≤ oid ∧ oid < c + l.length ∧ newDueDate tz t = some d ∧
        n = regenerate now oid t d ∧ validate t = true
  | [], _, n, h => by simp [savedCopies] at h
  | a :: l, c, n, h => by
    simp only [savedCopies, List.mem_append] at h
    rcases h with h | h
    · unfold copyOf at h
      cases hd : newDueDate tz a with
      | none => simp [hd] at h
      | some d =>
        by_cases hv : validate (regenerate now c a d) = true
        · simp only [hd, hv, if_true, Option.toList_some, List.mem_singleton] at h
          exact ⟨a, List.mem_cons_self _ _, c, d, le_refl _, by simp, hd, h, hv⟩
        · simp [hd, hv] at h
    · obtain ⟨t, ht, oid, d, h1, h2, h3, h4, h5⟩ := mem_savedCopies tz now l (c + 1) n h
      refine ⟨t, List.mem_cons_of_mem _ ht, oid, d, Nat.le_of_succ_le h1, ?_, h3, h4, h5⟩
      simp only [List.length_cons]
      omega

theorem mem_savedCopies_of_valid (tz : TimeZone) (now : Int) (t : Task) (d : Int)
    (hv : validate t = true) (hd : newDueDate tz t = some d) :
    ∀ (l : List Task) (c : Nat), t ∈ l →
      ∃ oid, c ≤ oid ∧ regenerate now oid t d ∈ savedCopies tz now c l
  | [], _, h => by simp at h
  | a :: l, c, h => by
    rcases List.mem_cons.1 h with rfl | h
    · refine ⟨c, le_refl _, ?_⟩
      simp [savedCopies, copyOf, hd, validate_regenerate, hv]
    · obtain ⟨oid, h1, h2⟩ := mem_savedCopies_of_valid tz now t d hv hd l (c + 1) h
      refine ⟨oid, Nat.le_of_succ_le h1, ?_⟩
      simp only [savedCopies, List.mem_append]
      exact Or.inr h2

theorem matches_recurring (t : Task) :
    Query.matches { recurringNe := some "None" } t = true ↔ t.recurring ≠ "None" := by
  simp [Query.matches]

/-- For a task in the store with a non-empty title, a category in the
enumeration, recurring Daily, Weekly or Monthly, and a computed due date that
is a valid date, the copy the job builds is among the copies whose save
resolves: fresh identifier, `completed = false`, `createdAt = now`, the title,
category and recurring of the task, and the computed due date, which for
Daily and Weekly is the local time of the old due date plus one day or seven
days, read back as a time value. -/
theorem copy_among_saved (tz : TimeZone) (now : Int) (s : Store) (t : Task) (d d' : Int)
    (ht : t ∈ s.tasks)
    (hrec : t.recurring = "Daily" ∨ t.recurring = "Weekly" ∨ t.recurring = "Monthly")
    (htitle : t.title ≠ "") (hcat : t.category ∈ categoryEnum)
    (hd : t.dueDate = some d) (hd' : newDueDate tz t = some d') :
    (∃ n ∈ savedCopies tz now s.nextId (find s { recurringNe := some "None" }),
      s.nextId ≤ n._id ∧ n.title = t.title ∧ n.completed = false ∧
      n.category = t.category ∧ n.recurring = t.recurring ∧ n.createdAt = now ∧
      n.dueDate = some d') ∧
    (TimeClip d = some d → t.recurring = "Daily" →
      TimeClip (UTC tz (LocalTime tz d + 1 * 86400000)) = some d') ∧
    (TimeClip d = some d → t.recurring = "Weekly" →
      TimeClip (UTC tz (LocalTime tz d + 7 * 86400000)) = some d') := by
  have hne : t.recurring ≠ "None" := by
    rcases hrec with h | h | h <;> rw [h] <;> decide
  have hv : validate t = true := by
    rw [validate_iff]
    refine ⟨htitle, hcat, ?_⟩
    rcases hrec with h | h | h <;> rw [h] <;> decide
  have hsel : t ∈ find s { recurringNe := some "None" } := by
    unfold find
    rw [List.mem_filter]
    exact ⟨ht, (matches_recurring t).2 hne⟩
  obtain ⟨oid, ho, hmem⟩ := mem_savedCopies_of_valid tz now t d' hv hd' _ s.nextId hsel
  refine ⟨⟨regenerate now oid t d', hmem, ho, rfl, rfl, rfl, rfl, rfl, rfl⟩, ?_, ?_⟩
  · intro hc h
    rw [← hd', ← setDate_getDate_add]
    simp only [newDueDate, newDate, hd, Option.getD_some, hc, h, if_true]
  · intro hc h
    have h' : ¬ ("Weekly" = "Daily") := by decide
    rw [← hd', ← setDate_getDate_add]
    simp only [newDueDate, newDate, hd, Option.getD_some, hc, h, if_true, h', if_false]

/-- The specification's example: in UTC, the copy of a Daily task due
2024-01-01T00:00:00Z is due 2024-01-02T00:00:00Z; the original stays first in
the collection, unchanged. -/
theorem recurrenceSweep_example :
    recurrenceSweep (TimeZone.fixed 0) 50
        ⟨[⟨0, "a", true, some 1704067200000, "Work", "Daily", 1⟩], 1⟩
      = ⟨[⟨0, "a", true, some 1704067200000, "Work", "Daily", 1⟩,
          ⟨1, "a", false, some 1704153600000, "Work", "Daily", 50⟩], 2⟩ := by
  decide

theorem savedCopies_emptied_title (tz : TimeZone) (now : Int) (c : Nat) (d : Option Int)
    (cat rec : String) (created : Int) (done : Bool) (oid : Nat) :
    savedCopies tz now c [⟨oid, "", done, d, cat, rec, created⟩] = [] := by
  simp only [savedCopies, copyOf, List.append_nil]
  cases newDueDate tz ⟨oid, "", done, d, cat, rec, created⟩ with
  | none => rfl
  | some d' =>
    have hv : validate (regenerate now c ⟨oid, "", done, d, cat, rec, created⟩ d') = false := rfl
    simp [hv]

/-- C1 at the failing input: from the empty store, create a Daily task due
2024-01-01T00:00:00Z and set its title to the empty string by `PUT` (answered
200); the task is then in the store with recurring Daily, and a run of the
recurrence job, in any time zone and at any instant, inserts no record: the
copy is refused by the `required` validator when it is saved. -/
theorem recurrenceSweep_refuses_copy :
    (putTask (postTask 9 Store.empty
        { title := some "a", recurring := some "Daily", dueDate := some 1704067200000 }).2
      "000000000000000000000000" { title := some "" })
      = (.task 200 ⟨0, "", false, some 1704067200000, "Other", "Daily", 9⟩,
          ⟨[⟨0, "", false, some 1704067200000, "Other", "Daily", 9⟩], 1⟩) ∧
    (∀ (tz : TimeZone) (now : Int),
      recurrenceSweep tz now ⟨[⟨0, "", false, some 1704067200000, "Other", "Daily", 9⟩], 1⟩
        = ⟨[⟨0, "", false, some 1704067200000, "Other", "Daily", 9⟩], 2⟩) ∧
    (∀ (tz : TimeZone) (now : Int) (s' : Store),
      SweepsTo tz now ⟨[⟨0, "", false, some 1704067200000, "Other", "Daily", 9⟩], 1⟩ s' →
        s'.tasks = [⟨0, "", false, some 1704067200000, "Other", "Daily", 9⟩]) := by
  have hfind : find ⟨[⟨0, "", false, some 1704067200000, "Other", "Daily", 9⟩], 1⟩
      { recurringNe := some "None" }
      = [⟨0, "", false, some 1704067200000, "Other", "Daily", 9⟩] := by decide
  refine ⟨by decide, ?_, ?_⟩
  · intro tz now
    rw [recurrenceSweep_eq, hfind, savedCopies_emptied_title]
    rfl
  · intro tz now s' h
    obtain ⟨arrived, hs, hsub, _⟩ := h
    rw [hfind, savedCopies_emptied_title] at hsub
    have ha : arrived = [] := List.subperm_nil.1 hsub
    rw [hs, ha]
    rfl

/-! ## Repeated runs of the recurrence job -/

theorem newDueDate_congr (tz : TimeZone) (x y : Task) (h1 : x.recurring = y.recurring)
    (h2 : x.dueDate = y.dueDate) : newDueDate tz x = newDueDate tz y := by
  simp only [newDueDate, h1, h2]

theorem advances_congr (tz : TimeZone) :
    ∀ (k : Nat) (x y : Task), x.recurring = y.recurring → x.dueDate = y.dueDate →
      advances tz k x = advances tz k y
  | 0, _, _, _, _ => rfl
  | k + 1, x, y, h1, h2 => by
    simp only [advances, newDueDate_congr tz x y h1 h2]
    cases newDueDate tz y with
    | none => rfl
    | some d => exact advances_congr tz k _ _ h1 rfl

theorem advances_pred (tz : TimeZone) :
    ∀ (k : Nat) (x : Task), advances tz (k + 1) x = true → advances tz k x = true
  | 0, _, _ => rfl
  | k + 1, x, h => by
    rw [advances] at h ⊢
    cases hd : newDueDate tz x with
    | none => simp [hd] at h
    | some d =>
      simp only [hd] at h ⊢
      exact advances_pred tz k _ h

/-- A record that validation accepts, that recurs, and whose due date can be
advanced `k` more times; its copy is saved and can be advanced `k - 1` times. -/
theorem copyOf_of_advances (tz : TimeZone) (now : Int) (oid k : Nat) (x : Task)
    (hv : validate x = true) (hr : x.recurring ≠ "None")
    (ha : advances tz (k + 1) x = true) :
    ∃ n, copyOf tz now oid x = some n ∧ validate n = true ∧ n.recurring ≠ "None" ∧
      advances tz k n = true := by
  rw [advances] at ha
  cases hd : newDueDate tz x with
  | none => simp [hd] at ha
  | some d =>
    simp only [hd] at ha
    refine ⟨regenerate now oid x d, ?_, hv, hr, ?_⟩
    · simp [copyOf, hd, validate_regenerate, hv]
    · rw [← ha]
      exact advances_congr tz k _ _ rfl rfl

theorem savedCopies_of_advances (tz : TimeZone) (now : Int) (k : Nat) :
    ∀ (l : List Task) (c : Nat),
      (∀ x ∈ l, validate x = true ∧ x.recurring ≠ "None" ∧ advances tz (k + 1) x = true) →
      (savedCopies tz now c l).length = l.length ∧
      ∀ n ∈ savedCopies tz now c l,
        validate n = true ∧ n.recurring ≠ "None" ∧ advances tz k n = true
  | [], _, _ => by simp [savedCopies]
  | a :: l, c, h => by
    obtain ⟨hv, hr, ha⟩ := h a (List.mem_cons_self _ _)
    obtain ⟨n, hn, g1, g2, g3⟩ := copyOf_of_advances tz now c k a hv hr ha
    obtain ⟨ih1, ih2⟩ := savedCopies_of_advances tz now k l (c + 1)
      (fun x hx => h x (List.mem_cons_of_mem _ hx))
    constructor
    · simp [savedCopies, hn, ih1]
    · intro m hm
      simp only [savedCopies, hn, Option.toList_some, List.singleton_append,
        List.mem_cons] at hm
      rcases hm with rfl | hm
      · exact ⟨g1, g2, g3⟩
      · exact ih2 m hm

/-- When every record is accepted by validation, recurs, and can be advanced
`k + 1` more times, every run the job can make doubles the collection, and
every record it leaves is accepted, recurs, and can be advanced `k` more
times. -/
theorem sweepsTo_doubles (tz : TimeZone) (now : Int) (k : Nat) (s s' : Store)
    (h : ∀ x ∈ s.tasks,
      validate x = true ∧ x.recurring ≠ "None" ∧ advances tz (k + 1) x = true)
    (hs : SweepsTo tz now s s') :
    s'.tasks.length = 2 * s.tasks.length ∧
    ∀ x ∈ s'.tasks, validate x = true ∧ x.recurring ≠ "None" ∧ advances tz k x = true := by
  have hfind : find s { recurringNe := some "None" } = s.tasks := by
    unfold find
    rw [List.filter_eq_self]
    intro t ht
    exact (matches_recurring t).2 (h t ht).2.1
  obtain ⟨arrived, hs', _, hperm⟩ := hs
  rw [hfind] at hs' hperm
  obtain ⟨hlen, hall⟩ := savedCopies_of_advances tz now k s.tasks s.nextId h
  have hp := hperm hlen
  rw [hs']
  constructor
  · simp only [List.length_append, hp.length_eq, hlen]
    omega
  · intro x hx
    rcases List.mem_append.1 hx with hx | hx
    · obtain ⟨g1, g2, g3⟩ := h x hx
      exact ⟨g1, g2, advances_pred tz k x g3⟩
    · exact hall x (hp.subset hx)

theorem runsTo_length (tz : TimeZone) :
    ∀ (nows : List Int) (s s' : Store),
      (∀ x ∈ s.tasks,
        validate x = true ∧ x.recurring ≠ "None" ∧ advances tz nows.length x = true) →
      RunsTo tz nows s s' → s'.tasks.length = 2 ^ nows.length * s.tasks.length
  | [], s, s', _, hr => by
    cases hr
    simp
  | now :: nows, s, s', h, hr => by
    cases hr with
    | run h1 h2 =>
      obtain ⟨hlen, hall⟩ := sweepsTo_doubles tz now nows.length s _ h h1
      have ih := runsTo_length tz nows _ s' hall h2
      rw [ih, hlen, List.length_cons, pow_succ]
      ring

theorem runsTo_runSweeps (tz : TimeZone) :
    ∀ (nows : List Int) (s : Store), RunsTo tz nows s (runSweeps tz nows s)
  | [], s => RunsTo.done s
  | now :: nows, s =>
    RunsTo.run (sweepsTo_recurrenceSweep tz now s)
      (runsTo_runSweeps tz nows (recurrenceSweep tz now s))

/-- C6, as amended: starting from a store holding exactly one task, with a
non-empty title, a category in the enumeration, recurring Daily, Weekly or
Monthly, and a due date that can be advanced `n` times within the range of
`Date`, and running the recurrence job `n` times with nothing in between, the
store holds exactly `2 ^ n` records, whatever the order in which the saves of a
run land: each run adds one record for every record present, the copies made
by earlier runs included. Such a sequence of runs exists. -/
theorem runSweeps_count (tz : TimeZone) (nows : List Int) (t : Task) (c : Nat)
    (htitle : t.title ≠ "") (hcat : t.category ∈ categoryEnum)
    (hrec : t.recurring = "Daily" ∨ t.recurring = "Weekly" ∨ t.recurring = "Monthly")
    (hadv : advances tz nows.length t = true) :
    RunsTo tz nows ⟨[t], c⟩ (runSweeps tz nows ⟨[t], c⟩) ∧
    ∀ s', RunsTo tz nows ⟨[t], c⟩ s' → s'.tasks.length = 2 ^ nows.length := by
  have hne : t.recurring ≠ "None" := by
    rcases hrec with h | h | h <;> rw [h] <;> decide
  have hv : validate t = true := by
    rw [validate_iff]
    refine ⟨htitle, hcat, ?_⟩
    rcases hrec with h | h | h <;> rw [h] <;> decide
  refine ⟨runsTo_runSweeps tz nows _, fun s' hs' => ?_⟩
  have h := runsTo_length tz nows ⟨[t], c⟩ s' (by
    intro x hx
    rw [List.mem_singleton.1 hx]
    exact ⟨hv, hne, hadv⟩) hs'
  simpa using h

/-- C6 at three runs in UTC: eight records. -/
theorem runSweeps_count_witness :
    (runSweeps (TimeZone.fixed 0) [10, 20, 30]
      ⟨[⟨0, "a", false, some 5, "Other", "Daily", 1⟩], 1⟩).tasks.length = 2 ^ 3 :=
  (runSweeps_count (TimeZone.fixed 0) [10, 20, 30] ⟨0, "a", false, some 5, "Other", "Daily", 1⟩ 1
    (by decide) (by decide) (Or.inl rfl) (by decide)).2 _
    (runSweeps_count (TimeZone.fixed 0) [10, 20, 30] ⟨0, "a", false, some 5, "Other", "Daily", 1⟩
      1 (by decide) (by decide) (Or.inl rfl) (by decide)).1

/-- C6 as stated fails: a store holding exactly one task, a Daily one created
through `POST`, holds four records after two runs of the job, not three,
whatever the order in which the saves land. -/
theorem runSweeps_counterexample :
    (postTask 9 Store.empty { title := some "a", recurring := some "Daily" }).2
      = ⟨[⟨0, "a", false, none, "Other", "Daily", 9⟩], 1⟩ ∧
    (∀ s', RunsTo (TimeZone.fixed 0) [10, 20]
        ⟨[⟨0, "a", false, none, "Other", "Daily", 9⟩], 1⟩ s' →
      s'.tasks.length = 4 ∧ s'.tasks.length ≠ [10, 20].length + 1) ∧
    (runSweeps (TimeZone.fixed 0) [10, 20]
      ⟨[⟨0, "a", false, none, "Other", "Daily", 9⟩], 1⟩).tasks.length = 4 := by
  refine ⟨by decide, ?_, by decide⟩
  intro s' hs'
  have h := runsTo_length (TimeZone.fixed 0) [10, 20]
    ⟨[⟨0, "a", false, none, "Other", "Daily", 9⟩], 1⟩ s' (by
      intro x hx
      rw [List.mem_singleton.1 hx]
      decide) hs'
  have h4 : s'.tasks.length = 4 := by simpa using h
  exact ⟨h4, by rw [h4]; decide⟩

/-! ## Invariants of the store -/

theorem mem_updateFirst {α : Type} (p : α → Bool) (f : α → α) :
    ∀ (l : List α) (t : α), t ∈ updateFirst p f l → t ∈ l ∨ ∃ x ∈ l, t = f x
  | [], t, h => by simp [updateFirst] at h
  | a :: l, t, h => by
    by_cases ha : p a = true
    · simp only [updateFirst, ha, if_true, List.mem_cons] at h
      rcases h with h | h
      · exact Or.inr ⟨a, List.mem_cons_self _ _, h⟩
      · exact Or.inl (List.mem_cons_of_mem _ h)
    · have h' : t ∈ a :: updateFirst p f l := by simpa [updateFirst, ha] using h
      rcases List.mem_cons.1 h' with h1 | h1
      · rw [h1]
        exact Or.inl (List.mem_cons_self _ _)
      · rcases mem_updateFirst p f l t h1 with h2 | ⟨x, hx, h2⟩
        · exact Or.inl (List.mem_cons_of_mem _ h2)
        · exact Or.inr ⟨x, List.mem_cons_of_mem _ hx, h2⟩

theorem putTask_tasks (s : Store) (id : String) (body : TaskFields) :
    (putTask s id body).2.nextId = s.nextId ∧
    ∀ t ∈ (putTask s id body).2.tasks, t ∈ s.tasks ∨ ∃ x ∈ s.tasks, t = applySet body x := by
  have hb : putUpdate body = body := by cases body; rfl
  cases hc : castObjectId id with
  | error e =>
    simp only [putTask, findByIdAndUpdate, hc]
    exact ⟨trivial, fun t h => Or.inl h⟩
  | ok oid =>
    cases hf : s.tasks.find? (fun t => t._id == oid) with
    | none =>
      simp only [putTask, findByIdAndUpdate, hc, hf]
      exact ⟨trivial, fun t h => Or.inl h⟩
    | some x =>
      simp only [putTask, findByIdAndUpdate, hc, hf, hb]
      exact ⟨trivial, fun t h => mem_updateFirst _ _ _ t h⟩

theorem deleteTask_tasks (s : Store) (id : String) :
    (deleteTask s id).2.nextId = s.nextId ∧
    ∀ t ∈ (deleteTask s id).2.tasks, t ∈ s.tasks := by
  cases hc : castObjectId id with
  | error e =>
    simp only [deleteTask, findByIdAndDelete, hc]
    exact ⟨trivial, fun t h => h⟩
  | ok oid =>
    cases hf : s.tasks.find? (fun t => t._id == oid) with
    | none =>
      simp only [deleteTask, findByIdAndDelete, hc, hf]
      exact ⟨trivial, fun t h => h⟩
    | some x =>
      simp only [deleteTask, findByIdAndDelete, hc, hf]
      exact ⟨trivial, fun t h => List.mem_of_mem_eraseP h⟩

theorem postTask_tasks (now : Int) (s : Store) (body : TaskFields) :
    s.nextId ≤ (postTask now s body).2.nextId ∧
    ∀ t ∈ (postTask now s body).2.tasks,
      t ∈ s.tasks ∨ (t._id = s.nextId ∧ (postTask now s body).2.nextId = s.nextId + 1 ∧
        validate t = true) := by
  cases ht : body.title with
  | none =>
    rw [postTask_missing_title now s body (Or.inl ht)]
    exact ⟨le_refl _, fun t h => Or.inl h⟩
  | some title =>
    by_cases hne : title = ""
    · rw [postTask_missing_title now s body (Or.inr (hne ▸ ht))]
      exact ⟨le_refl _, fun t h => Or.inl h⟩
    · rw [postTask_built now s body title ht hne]
      by_cases hv : validate ⟨s.nextId, title, body.completed.getD false, body.dueDate,
          body.category.getD "Other", body.recurring.getD "None", now⟩ = true
      · simp only [save, hv, if_true]
        refine ⟨Nat.le_succ _, fun t h => ?_⟩
        rcases List.mem_append.1 h with h | h
        · exact Or.inl h
        · rw [List.mem_singleton.1 h]
          exact Or.inr ⟨rfl, by simp, hv⟩
      · simp only [save, hv]
        exact ⟨Nat.le_succ _, fun t h => Or.inl h⟩

/-- Every operation keeps the identifiers of the collection below the
generator (the recurrence job with its saves landing in order). -/
theorem wf_apply (s : Store) (op : Op) (h : s.WF) : (op.apply s).WF := by
  cases op with
  | create now body =>
    intro t ht
    have hp := postTask_tasks now s body
    rcases hp.2 t ht with h1 | ⟨h1, h2, _⟩
    · exact Nat.lt_of_lt_of_le (h t h1) hp.1
    · show t._id < (postTask now s body).2.nextId
      rw [h1, h2]
      exact Nat.lt_succ_self _
  | update id body =>
    intro t ht
    have hp := putTask_tasks s id body
    show t._id < (putTask s id body).2.nextId
    rw [hp.1]
    rcases hp.2 t ht with h1 | ⟨x, hx, rfl⟩
    · exact h t h1
    · exact h x hx
  | delete id =>
    intro t ht
    have hp := deleteTask_tasks s id
    show t._id < (deleteTask s id).2.nextId
    rw [hp.1]
    exact h t (hp.2 t ht)
  | bulkComplete =>
    intro t ht
    have ht' : t ∈ (completeAll s).2.tasks := ht
    rw [completeAll_tasks] at ht'
    obtain ⟨x, hx, rfl⟩ := List.mem_map.1 ht'
    exact h x hx
  | sweep tz now =>
    intro t ht
    have ht' : t ∈ (recurrenceSweep tz now s).tasks := ht
    show t._id < (recurrenceSweep tz now s).nextId
    rw [recurrenceSweep_eq] at ht' ⊢
    rcases List.mem_append.1 ht' with h1 | h1
    · exact Nat.lt_of_lt_of_le (h t h1) (Nat.le_add_right _ _)
    · obtain ⟨x, _, oid, d, _, h3, _, rfl, _⟩ := mem_savedCopies tz now _ _ t h1
      exact h3

/-- Every store reached from the empty one has fresh identifiers ahead. -/
theorem wf_reachable (ops : List Op) : (runOps Store.empty ops).WF := by
  have key : ∀ (ops : List Op) (s : Store), s.WF → (runOps s ops).WF := by
    intro ops
    induction ops with
    | nil => intro s h; exact h
    | cons op ops ih => intro s h; exact ih _ (wf_apply s op h)
  exact key ops Store.empty (by intro t ht; cases ht)

/-- Every operation that carries no value the schema would refuse keeps all
records valid; in particular create, delete, bulk completion and the recurrence
job always do. -/
theorem valid_apply (s : Store) (op : Op) (hop : op.Clean) (h : ∀ t ∈ s.tasks, t.Valid) :
    ∀ t ∈ (op.apply s).tasks, t.Valid := by
  cases op with
  | create now body =>
    intro t ht
    rcases (postTask_tasks now s body).2 t ht with h1 | ⟨_, _, hv⟩
    · exact h t h1
    · exact (validate_iff t).1 hv
  | update id body =>
    intro t ht
    rcases (putTask_tasks s id body).2 t ht with h1 | ⟨x, hx, rfl⟩
    · exact h t h1
    · obtain ⟨h1, h2, h3⟩ := h x hx
      obtain ⟨c1, c2, c3⟩ := hop
      refine ⟨?_, ?_, ?_⟩
      · cases hb : body.title with
        | none => simpa [applySet, hb] using h1
        | some v => simpa [applySet, hb] using c1 v hb
      · cases hb : body.category with
        | none => simpa [applySet, hb] using h2
        | some v => simpa [applySet, hb] using c2 v hb
      · cases hb : body.recurring with
        | none => simpa [applySet, hb] using h3
        | some v => simpa [applySet, hb] using c3 v hb
  | delete id =>
    intro t ht
    exact h t ((deleteTask_tasks s id).2 t ht)
  | bulkComplete =>
    intro t ht
    have ht' : t ∈ (completeAll s).2.tasks := ht
    rw [completeAll_tasks] at ht'
    obtain ⟨x, hx, rfl⟩ := List.mem_map.1 ht'
    exact h x hx
  | sweep tz now =>
    intro t ht
    have ht' : t ∈ (recurrenceSweep tz now s).tasks := ht
    rw [recurrenceSweep_eq] at ht'
    rcases List.mem_append.1 ht' with h1 | h1
    · exact h t h1
    · obtain ⟨x, _, oid, d, _, _, _, rfl, hv⟩ := mem_savedCopies tz now _ _ t h1
      exact (validate_iff _).1 hv

/-- Every store reached from the empty one by operations that carry no value
the schema would refuse holds valid records only. -/
theorem valid_reachable (ops : List Op) (hops : ∀ op ∈ ops, op.Clean) :
    ∀ t ∈ (runOps Store.empty ops).tasks, t.Valid := by
  have key : ∀ (ops : List Op) (s : Store), (∀ op ∈ ops, op.Clean) →
      (∀ t ∈ s.tasks, t.Valid) → ∀ t ∈ (runOps s ops).tasks, t.Valid := by
    intro ops
    induction ops with
    | nil => intro s _ h; exact h
    | cons op ops ih =>
      intro s hc h
      exact ih _ (fun o ho => hc o (List.mem_cons_of_mem _ ho))
        (valid_apply s op (hc op (List.mem_cons_self _ _)) h)
  exact key ops Store.empty hops (by intro t ht; cases ht)


/-- Every run the recurrence job can make keeps the identifiers of the
collection below the generator and, on valid records, leaves valid records. -/
theorem sweepsTo_invariants (tz : TimeZone) (now : Int) (s s' : Store)
    (hs : SweepsTo tz now s s') :
    (s.WF → s'.WF) ∧ ((∀ t ∈ s.tasks, t.Valid) → ∀ t ∈ s'.tasks, t.Valid) ∧
    ∃ arrived, s'.tasks = s.tasks ++ arrived := by
  obtain ⟨arrived, rfl, hsub, _⟩ := hs
  refine ⟨?_, ?_, arrived, rfl⟩
  · intro h t ht
    rcases List.mem_append.1 ht with h1 | h1
    · exact Nat.lt_of_lt_of_le (h t h1) (Nat.le_add_right _ _)
    · obtain ⟨x, _, oid, d, _, h3, _, rfl, _⟩ := mem_savedCopies tz now _ _ t (hsub.subset h1)
      exact h3
  · intro h t ht
    rcases List.mem_append.1 ht with h1 | h1
    · exact h t h1
    · obtain ⟨x, _, oid, d, _, _, _, rfl, hv⟩ := mem_savedCopies tz now _ _ t (hsub.subset h1)
      exact (validate_iff _).1 hv

/-! ## The typed update and the update of stored documents -/

theorem find?_toDocument (oid : Nat) :
    ∀ l : List Task, (l.map Task.toDocument).find? (fun d => d._id == oid)
      = (l.find? (fun t => t._id == oid)).map Task.toDocument
  | [] => rfl
  | a :: l => by
    by_cases ha : a._id = oid
    · simp [List.find?_cons, Task.toDocument, ha]
    · have h1 : (a.toDocument._id == oid) = false := by simpa [Task.toDocument] using ha
      have h2 : (a._id == oid) = false := by simpa using ha
      simp only [List.map_cons, List.find?_cons, h1, h2]
      exact find?_toDocument oid l

theorem updateFirst_toDocument (oid : Nat) (u : TaskFields) :
    ∀ l : List Task,
      updateFirst (fun d : Document => d._id == oid) (setDocument .dropped u)
          (l.map Task.toDocument)
        = (updateFirst (fun t : Task => t._id == oid) (applySet u) l).map Task.toDocument
  | [] => rfl
  | a :: l => by
    by_cases ha : a._id = oid
    · have h1 : (a.toDocument._id == oid) = true := by simpa [Task.toDocument] using ha
      have h2 : (a._id == oid) = true := by simpa using ha
      simp only [List.map_cons, updateFirst, h1, h2, if_true, setDocument_dropped]
    · have h1 : (a.toDocument._id == oid) = false := by simpa [Task.toDocument] using ha
      have h2 : (a._id == oid) = false := by simpa using ha
      simp only [List.map_cons, updateFirst, h1, h2, updateFirst_toDocument oid u l]
      rfl

/-- On a store layer that drops `undefined` keys, the update of stored
documents leaves the stored forms of the tasks the typed update leaves. -/
theorem putRaw_dropped_eq (s : Store) (id : String) (body : TaskFields) :
    (putRaw .dropped (s.tasks.map Task.toDocument) id body).2
      = (putTask s id body).2.tasks.map Task.toDocument := by
  cases hc : castObjectId id with
  | error e => simp only [putRaw, putTask, findByIdAndUpdate, hc]
  | ok oid =>
    cases hf : s.tasks.find? (fun t => t._id == oid) with
    | none =>
      simp only [putRaw, putTask, findByIdAndUpdate, hc, hf, find?_toDocument, Option.map_none']
    | some t =>
      simp only [putRaw, putTask, findByIdAndUpdate, hc, hf, find?_toDocument,
        Option.map_some', updateFirst_toDocument]

/-! ## A sufficient condition for advancing within the range of `Date` -/

/-- In a zone of fixed offset, a Daily task whose due date `d` and `d` plus `k`
days both lie in the range of `Date` can be advanced `k` times. -/
theorem advances_daily_fixed (offset : Int) :
    ∀ (k : Nat) (t : Task) (d : Int), t.recurring = "Daily" → t.dueDate = some d →
      -8640000000000000 ≤ d → d + k * 86400000 ≤ 8640000000000000 →
      advances (TimeZone.fixed offset) k t = true
  | 0, _, _, _, _, _, _ => rfl
  | k + 1, t, d, hr, hd, h1, h2 => by
    have hk : (0 : Int) ≤ (k : Int) := Int.ofNat_nonneg k
    have hc : TimeClip d = some d := by
      unfold TimeClip
      rw [if_pos]
      push_cast at h2
      constructor <;> omega
    have hb : -8640000000000000 ≤ d + 1 * 86400000 ∧ d + 1 * 86400000 ≤ 8640000000000000 := by
      push_cast at h2
      constructor <;> omega
    have hn : newDueDate (TimeZone.fixed offset) t = some (d + 86400000) := by
      simp only [newDueDate, newDate, hd, Option.getD_some, hc, hr, if_true, setDate_fixed]
      unfold TimeClip
      rw [if_pos hb]
      norm_num
    rw [advances]
    simp only [hn]
    exact advances_daily_fixed offset k { t with dueDate := some (d + 86400000) }
      (d + 86400000) hr rfl (by omega) (by push_cast at h2; omega)

end TodoList
